import Mathlib

/-!
# Verification of the madany-pdf-batcher core engine

A shallow embedding, in Lean 4, of the core PDF layout and batch-processing
logic of the madany-pdf-batcher repository, together with theorems settling
the frozen claims about its specification.

Embedding conventions:
* Python floats are modelled by exact rationals; all arithmetic appearing in
  the embedded code paths (margins, tolerances, anchors) is exact in the
  source's value range, so no rounding behaviour is lost.
* Python dicts used as keyed maps are modelled by association lists
  (first-match lookup, which matches dict semantics because keys are unique
  at insertion in the source).
* Python strings are modelled by Lean strings or by lists of characters
  where character-level scanning is embedded.
* Fallible operations are modelled with Option; exceptions crossing the
  per-file boundary of the batch loop are modelled with Except.
-/

namespace Madany

/-- Python's substring test, the expression sub in s for strings. -/
def strIn (sub s : String) : Bool :=
  (s.toList.tails).any (fun t => sub.toList.isPrefixOf t)

/-- Python str.strip whitespace characters (space, tab, newline, carriage
return, vertical tab, form feed). -/
def isPySpace (c : Char) : Bool :=
  c = ' ' || c = '\t' || c = '\n' || c = '\r' || c = '\x0b' || c = '\x0c'

/-- Python str.strip over a character list: drop whitespace at both ends. -/
def pyStripList (l : List Char) : List Char :=
  ((l.dropWhile isPySpace).reverse.dropWhile isPySpace).reverse

/-- Python str.strip on a string. -/
def pyStrip (s : String) : String :=
  String.mk (pyStripList s.toList)

/-!
## Paper catalog and classifier (src/core/constants.py)
-/

/-- PAPER_DEFINITIONS from src/core/constants.py: each family maps, in
source order, to its modes with reference width and height in points
(labels, which are UI-only, are omitted). -/
def PAPER_DEFINITIONS : List (String × List (String × ℚ × ℚ)) :=
  [("A3", [("portrait", (842, 1191)), ("landscape", (1191, 842))]),
   ("A4", [("portrait", (595, 842)), ("landscape", (842, 595))]),
   ("A5", [("portrait", (420, 595)), ("landscape", (595, 420))]),
   ("US Letter", [("portrait", (612, 792)), ("landscape", (792, 612))]),
   ("US Legal", [("portrait", (612, 1008)), ("landscape", (1008, 612))]),
   ("Tabloid", [("portrait", (792, 1224)), ("landscape", (1224, 792))]),
   ("Unknown", [("portrait", (595, 842)), ("landscape", (842, 595))])]

/-- DIMENSION_TOLERANCE from src/core/constants.py. -/
def DIMENSION_TOLERANCE : ℚ := 10

/-- Python's abs on a rational. -/
def ratAbs (q : ℚ) : ℚ :=
  if q < 0 then -q else q

/-- Inner loop of detect_paper_key: scan the modes of one family and return
the first whose reference dimensions are within tolerance of the input. -/
def detect_modes (family : String) (width height tol : ℚ) :
    List (String × ℚ × ℚ) → Option (String × String)
  | [] => none
  | (mode, w, h) :: rest =>
    if ratAbs (width - w) < tol ∧ ratAbs (height - h) < tol then some (family, mode)
    else detect_modes family width height tol rest

/-- Outer loop of detect_paper_key: scan families in catalog order,
explicitly skipping the "Unknown" family. -/
def detect_families (width height tol : ℚ) :
    List (String × List (String × ℚ × ℚ)) → Option (String × String)
  | [] => none
  | (family, modes) :: rest =>
    if family = "Unknown" then detect_families width height tol rest
    else
      match detect_modes family width height tol modes with
      | some k => some k
      | none => detect_families width height tol rest

/-- detect_paper_key from src/core/constants.py with an explicit tolerance
argument (the source declares tol with default DIMENSION_TOLERANCE). -/
def detect_paper_key_tol (width height tol : ℚ) : Option (String × String) :=
  detect_families width height tol PAPER_DEFINITIONS

/-- detect_paper_key at its default tolerance, the form every caller in the
repository uses. -/
def detect_paper_key (width height : ℚ) : Option (String × String) :=
  detect_paper_key_tol width height DIMENSION_TOLERANCE

/-- The classifiable catalog entries: every (family, mode, w, h) of
PAPER_DEFINITIONS whose family is not the "Unknown" fallback bucket. -/
def catalog_entries : List (String × String × ℚ × ℚ) :=
  (PAPER_DEFINITIONS.filter (fun fm => fm.1 ≠ "Unknown")).flatMap
    (fun fm => fm.2.map (fun mwh => (fm.1, mwh.1, mwh.2.1, mwh.2.2)))

/-!
## Anchor calculator (src/core/anchor.py)
-/

/-- MM_TO_PTS_FACTOR from src/core/anchor.py. -/
def MM_TO_PTS_FACTOR : ℚ := 72 / 25.4

/-- DEFAULT_MARGIN_MM from src/core/anchor.py. -/
def DEFAULT_MARGIN_MM : ℚ := 10

/-- mm_to_points from src/core/anchor.py. -/
def mm_to_points (mm : ℚ) : ℚ :=
  mm * MM_TO_PTS_FACTOR

/-- The keys of the cfg dict that compute_anchor_for_pdf reads. A value of
none models a key that is absent from the dict or mapped to Python None
(cfg.get cannot tell those apart); some "" models an empty position string. -/
structure AnchorCfg where
  position : Option String
  h_margin : Option ℚ
  v_margin : Option ℚ

/-- compute_anchor_for_pdf from src/core/anchor.py. The source line
position = cfg.get("position") or "Top Left" replaces a falsy value (absent
key, None, or the empty string) by "Top Left". -/
def compute_anchor_for_pdf (page_w_pts page_h_pts block_w_pts block_h_pts : ℚ)
    (cfg : AnchorCfg) : ℚ × ℚ :=
  let position : String :=
    match cfg.position with
    | none => "Top Left"
    | some s => if s = "" then "Top Left" else s
  let margin_x_pts := mm_to_points (cfg.h_margin.getD DEFAULT_MARGIN_MM)
  let margin_y_pts := mm_to_points (cfg.v_margin.getD DEFAULT_MARGIN_MM)
  let y_pos : ℚ :=
    if strIn "Top" position then margin_y_pts
    else if strIn "Bottom" position then page_h_pts - margin_y_pts - block_h_pts
    else (page_h_pts - block_h_pts) / 2
  let x_pos : ℚ :=
    if strIn "Left" position then margin_x_pts
    else if strIn "Right" position then page_w_pts - margin_x_pts - block_w_pts
    else (page_w_pts - block_w_pts) / 2
  (x_pos, y_pos)

/-!
## Lemmas about the classifier
-/

/-- detect_modes only ever returns keys of the family it is scanning. -/
lemma detect_modes_fst {family : String} {width height tol : ℚ} :
    ∀ {l : List (String × ℚ × ℚ)} {k : String × String},
      detect_modes family width height tol l = some k → k.1 = family := by
  intro l
  induction l with
  | nil => intro k h; simp [detect_modes] at h
  | cons e rest ih =>
    intro k h
    obtain ⟨mode, w, hh⟩ := e
    rw [detect_modes] at h
    split at h
    · cases h; rfl
    · exact ih h

/-- detect_families never returns a key of the "Unknown" family, because the
loop explicitly skips that family. -/
lemma detect_families_ne_unknown {width height tol : ℚ} :
    ∀ {l : List (String × List (String × ℚ × ℚ))} {k : String × String},
      detect_families width height tol l = some k → k.1 ≠ "Unknown" := by
  intro l
  induction l with
  | nil => intro k h; simp [detect_families] at h
  | cons e rest ih =>
    intro k h
    obtain ⟨family, modes⟩ := e
    rw [detect_families] at h
    split at h
    · exact ih h
    · rename_i hfam
      cases hm : detect_modes family width height tol modes with
      | none => rw [hm] at h; exact ih h
      | some k0 =>
        rw [hm] at h
        cases h
        rw [detect_modes_fst hm]
        exact hfam

/-- C5: for every classifiable catalog entry (family, orientation) with
reference dimensions (w, h), detect_paper_key (w, h) returns exactly that
key; at (w+9, h) it still returns a match; at (w+11, h) it returns None;
and no input whatsoever yields a key of the "Unknown" family. -/
theorem C5_paper_classifier :
    (∀ e ∈ catalog_entries, detect_paper_key e.2.2.1 e.2.2.2 = some (e.1, e.2.1)) ∧
    (∀ e ∈ catalog_entries, (detect_paper_key (e.2.2.1 + 9) e.2.2.2).isSome = true) ∧
    (∀ e ∈ catalog_entries, detect_paper_key (e.2.2.1 + 11) e.2.2.2 = none) ∧
    (∀ w h k, detect_paper_key w h = some k → k.1 ≠ "Unknown") := by
  refine ⟨?_, ?_, ?_, ?_⟩
  · norm_num [catalog_entries, detect_paper_key, detect_paper_key_tol, PAPER_DEFINITIONS,
      detect_families, detect_modes, ratAbs, DIMENSION_TOLERANCE,
      (by decide : ¬(("A3" : String) = "Unknown")), (by decide : ¬(("A4" : String) = "Unknown")),
      (by decide : ¬(("A5" : String) = "Unknown")),
      (by decide : ¬(("US Letter" : String) = "Unknown")),
      (by decide : ¬(("US Legal" : String) = "Unknown")),
      (by decide : ¬(("Tabloid" : String) = "Unknown"))]
  · norm_num [catalog_entries, detect_paper_key, detect_paper_key_tol, PAPER_DEFINITIONS,
      detect_families, detect_modes, ratAbs, DIMENSION_TOLERANCE,
      (by decide : ¬(("A3" : String) = "Unknown")), (by decide : ¬(("A4" : String) = "Unknown")),
      (by decide : ¬(("A5" : String) = "Unknown")),
      (by decide : ¬(("US Letter" : String) = "Unknown")),
      (by decide : ¬(("US Legal" : String) = "Unknown")),
      (by decide : ¬(("Tabloid" : String) = "Unknown"))]
  · norm_num [catalog_entries, detect_paper_key, detect_paper_key_tol, PAPER_DEFINITIONS,
      detect_families, detect_modes, ratAbs, DIMENSION_TOLERANCE,
      (by decide : ¬(("A3" : String) = "Unknown")), (by decide : ¬(("A4" : String) = "Unknown")),
      (by decide : ¬(("A5" : String) = "Unknown")),
      (by decide : ¬(("US Letter" : String) = "Unknown")),
      (by decide : ¬(("US Legal" : String) = "Unknown")),
      (by decide : ¬(("Tabloid" : String) = "Unknown"))]
  · intro w h k hk
    exact detect_families_ne_unknown hk

/-- Witness for C5 at concrete catalog entries. -/
theorem C5_paper_classifier_witness :
    detect_paper_key 595 842 = some ("A4", "portrait") ∧
    (detect_paper_key (842 + 9) 1191).isSome = true ∧
    detect_paper_key (842 + 11) 1191 = none := by
  refine ⟨?_, ?_, ?_⟩
  · exact C5_paper_classifier.1 ("A4", "portrait", 595, 842)
      (by simp [catalog_entries, PAPER_DEFINITIONS])
  · exact C5_paper_classifier.2.1 ("A3", "portrait", 842, 1191)
      (by simp [catalog_entries, PAPER_DEFINITIONS])
  · exact C5_paper_classifier.2.2.1 ("A3", "portrait", 842, 1191)
      (by simp [catalog_entries, PAPER_DEFINITIONS])

/-- C7: compute_anchor_for_pdf converts margins via the factor 72/25.4 and
places the block per the position keywords, falling back to dead center on
each axis when no keyword of that axis occurs; a non-empty position string
containing none of the four keywords centers on both axes. -/
theorem C7_compute_anchor (page_w page_h block_w block_h hm vm : ℚ) (pos : String) :
    (strIn "Top" pos = true →
      (compute_anchor_for_pdf page_w page_h block_w block_h
        ⟨some pos, some hm, some vm⟩).2 = vm * (72 / 25.4)) ∧
    (strIn "Top" pos = false → strIn "Bottom" pos = true →
      (compute_anchor_for_pdf page_w page_h block_w block_h
        ⟨some pos, some hm, some vm⟩).2 = page_h - vm * (72 / 25.4) - block_h) ∧
    (pos ≠ "" → strIn "Top" pos = false → strIn "Bottom" pos = false →
      (compute_anchor_for_pdf page_w page_h block_w block_h
        ⟨some pos, some hm, some vm⟩).2 = (page_h - block_h) / 2) ∧
    (strIn "Left" pos = true →
      (compute_anchor_for_pdf page_w page_h block_w block_h
        ⟨some pos, some hm, some vm⟩).1 = hm * (72 / 25.4)) ∧
    (strIn "Left" pos = false → strIn "Right" pos = true →
      (compute_anchor_for_pdf page_w page_h block_w block_h
        ⟨some pos, some hm, some vm⟩).1 = page_w - hm * (72 / 25.4) - block_w) ∧
    (pos ≠ "" → strIn "Left" pos = false → strIn "Right" pos = false →
      (compute_anchor_for_pdf page_w page_h block_w block_h
        ⟨some pos, some hm, some vm⟩).1 = (page_w - block_w) / 2) ∧
    (pos ≠ "" → strIn "Top" pos = false → strIn "Bottom" pos = false →
      strIn "Left" pos = false → strIn "Right" pos = false →
      compute_anchor_for_pdf page_w page_h block_w block_h
        ⟨some pos, some hm, some vm⟩ = ((page_w - block_w) / 2, (page_h - block_h) / 2)) := by
  refine ⟨?_, ?_, ?_, ?_, ?_, ?_, ?_⟩
  · intro hTop
    by_cases hpos : pos = ""
    · rw [hpos] at hTop; exact absurd hTop (by decide)
    · simp [compute_anchor_for_pdf, hpos, hTop, mm_to_points, MM_TO_PTS_FACTOR]
  · intro hTop hBot
    by_cases hpos : pos = ""
    · rw [hpos] at hBot; exact absurd hBot (by decide)
    · simp [compute_anchor_for_pdf, hpos, hTop, hBot, mm_to_points, MM_TO_PTS_FACTOR]
  · intro hpos hTop hBot
    simp [compute_anchor_for_pdf, hpos, hTop, hBot]
  · intro hLeft
    by_cases hpos : pos = ""
    · rw [hpos] at hLeft; exact absurd hLeft (by decide)
    · simp [compute_anchor_for_pdf, hpos, hLeft, mm_to_points, MM_TO_PTS_FACTOR]
  · intro hLeft hRight
    by_cases hpos : pos = ""
    · rw [hpos] at hRight; exact absurd hRight (by decide)
    · simp [compute_anchor_for_pdf, hpos, hLeft, hRight, mm_to_points, MM_TO_PTS_FACTOR]
  · intro hpos hLeft hRight
    simp [compute_anchor_for_pdf, hpos, hLeft, hRight]
  · intro hpos hTop hBot hLeft hRight
    simp [compute_anchor_for_pdf, hpos, hTop, hBot, hLeft, hRight]

/-- Witness for C7 at a concrete position string and margins. -/
theorem C7_compute_anchor_witness :
    (compute_anchor_for_pdf 595 842 100 50
      ⟨some "Bottom Right", some 10, some 20⟩).2 = 842 - 20 * (72 / 25.4) - 50 ∧
    (compute_anchor_for_pdf 595 842 100 50
      ⟨some "Middle", some 10, some 20⟩) = ((595 - 100) / 2, (842 - 50) / 2) := by
  constructor
  · exact (C7_compute_anchor 595 842 100 50 10 20 "Bottom Right").2.1
      (by decide) (by decide)
  · exact (C7_compute_anchor 595 842 100 50 10 20 "Middle").2.2.2.2.2.2
      (by decide) (by decide) (by decide) (by decide) (by decide)

/-- C10: a cfg with no position key, a None position, or an empty position
string behaves exactly like "Top Left": margin from the top and from the
left, not the dead-center default. -/
theorem C10_anchor_position_falsy_default
    (page_w page_h block_w block_h hm vm : ℚ) :
    compute_anchor_for_pdf page_w page_h block_w block_h ⟨none, some hm, some vm⟩
      = compute_anchor_for_pdf page_w page_h block_w block_h
          ⟨some "Top Left", some hm, some vm⟩ ∧
    compute_anchor_for_pdf page_w page_h block_w block_h ⟨some "", some hm, some vm⟩
      = compute_anchor_for_pdf page_w page_h block_w block_h
          ⟨some "Top Left", some hm, some vm⟩ ∧
    compute_anchor_for_pdf page_w page_h block_w block_h ⟨none, some hm, some vm⟩
      = (hm * (72 / 25.4), vm * (72 / 25.4)) := by
  refine ⟨rfl, rfl, ?_⟩
  simp [compute_anchor_for_pdf, mm_to_points, MM_TO_PTS_FACTOR,
    (by decide : strIn "Top" "Top Left" = true),
    (by decide : strIn "Left" "Top Left" = true)]

/-!
## Config resolution: batch worker vs live preview
(src/ui/processing.py PDFProcessingThread._get_config and
src/ui/pdf_viewer.py get_config_for_page_size)
-/

/-- A PDF page as both resolvers observe it: the rect dimensions reported by
the viewer library and the page rotation. -/
structure Page where
  width : ℚ
  height : ℚ
  rotation : ℤ

/-- PDFProcessingThread._get_page_dim_corrected from src/ui/processing.py:
swap the reported dimensions back for 90/270 rotations. -/
def thread_get_page_dim_corrected (p : Page) : ℚ × ℚ :=
  if p.rotation = 90 ∨ p.rotation = 270 then (p.height, p.width)
  else (p.width, p.height)

/-- get_page_dim_corrected from src/ui/pdf_viewer.py (the preview path has
its own copy of the same correction). -/
def viewer_get_page_dim_corrected (p : Page) : ℚ × ℚ :=
  if p.rotation = 90 ∨ p.rotation = 270 then (p.height, p.width)
  else (p.width, p.height)

/-- Python dict.get over an association list keyed by paper keys. -/
def dict_get {α : Type} (m : List ((String × String) × α)) (k : String × String) :
    Option α :=
  (m.find? (fun e => decide (e.1 = k))).map Prod.snd

/-- PDFProcessingThread._get_config from src/ui/processing.py: correct the
dimensions, classify, synthesize an ("Unknown", orientation) key when
classification fails, then configs.get(key, default). -/
def thread_get_config {α : Type} (page : Page)
    (configs : List ((String × String) × α)) (default : α) : α :=
  let wh := thread_get_page_dim_corrected page
  let key : String × String :=
    match detect_paper_key wh.1 wh.2 with
    | none => ("Unknown", if wh.2 ≥ wh.1 then "portrait" else "landscape")
    | some k => k
  (dict_get configs key).getD default

/-- The per-feature config maps and defaults held by the main window, as
read by get_config_for_page_size. -/
structure WinConfigs (α : Type) where
  text_configs_by_size : List ((String × String) × α)
  default_text_config : α
  timestamp_configs_by_size : List ((String × String) × α)
  default_timestamp_config : α
  stamp_configs_by_size : List ((String × String) × α)
  default_stamp_config : α

/-- get_config_for_page_size from src/ui/pdf_viewer.py. The source guard is
"if key and key in target_map"; key is a non-empty tuple, hence always
truthy, so only the membership test decides. -/
def get_config_for_page_size {α : Type} (win : WinConfigs α) (page : Page)
    (config_type : String) : α :=
  let wh := viewer_get_page_dim_corrected page
  let key : String × String :=
    match detect_paper_key wh.1 wh.2 with
    | none => ("Unknown", if wh.2 ≥ wh.1 then "portrait" else "landscape")
    | some k => k
  let target_map_default : List ((String × String) × α) × α :=
    if config_type = "text" then (win.text_configs_by_size, win.default_text_config)
    else if config_type = "timestamp" then
      (win.timestamp_configs_by_size, win.default_timestamp_config)
    else if config_type = "stamp" then
      (win.stamp_configs_by_size, win.default_stamp_config)
    else (win.text_configs_by_size, win.default_text_config)
  match dict_get target_map_default.1 key with
  | some cfg => cfg
  | none => target_map_default.2

/-- C1: for every page geometry and identical config maps and defaults, the
batch worker's _get_config and the live preview's get_config_for_page_size
resolve the same config, for each of the three feature types. -/
theorem C1_config_resolution_agree {α : Type} (win : WinConfigs α) (page : Page) :
    get_config_for_page_size win page "text"
      = thread_get_config page win.text_configs_by_size win.default_text_config ∧
    get_config_for_page_size win page "timestamp"
      = thread_get_config page win.timestamp_configs_by_size win.default_timestamp_config ∧
    get_config_for_page_size win page "stamp"
      = thread_get_config page win.stamp_configs_by_size win.default_stamp_config := by
  refine ⟨?_, ?_, ?_⟩ <;>
  · simp only [get_config_for_page_size, thread_get_config,
      viewer_get_page_dim_corrected, thread_get_page_dim_corrected]
    split <;> simp_all

/-!
## Stamp image processing (src/core/pdf_operations.py process_stamp_image)
-/

/-- The resize decision of PDFOperations.process_stamp_image, embedded at
the level of image dimensions in pixels: target_scale is 3.0 when
w < 1000 or h < 1000 and 1.0 otherwise; a scale above 1.0 resizes to
(int(w*scale), int(h*scale)).  The pixel contents (premultiplied-alpha
resampling, sharpen, opacity, PNG encoding) live in the imaging library and
are not observable at the dimension level. -/
def process_stamp_image_size (w h : ℕ) : ℕ × ℕ :=
  let target_scale : ℚ := if w < 1000 ∨ h < 1000 then 3 else 1
  if 1 < target_scale then
    ((⌊(w : ℚ) * target_scale⌋).toNat, (⌊(h : ℚ) * target_scale⌋).toNat)
  else (w, h)

/-- Whether process_stamp_image takes the upscale-and-sharpen branch. -/
def process_stamp_image_upscales (w h : ℕ) : Bool :=
  let target_scale : ℚ := if w < 1000 ∨ h < 1000 then 3 else 1
  decide (1 < target_scale)

/-- C2 counterexample: the claim says the upscale happens iff BOTH
dimensions are below 1000, but at 1500 x 500 the code upscales (to
4500 x 1500) although the width is not below 1000: the source condition is
an OR. -/
theorem C2_counterexample :
    ¬ (∀ w h : ℕ,
        process_stamp_image_upscales w h = true ↔ (w < 1000 ∧ h < 1000)) := by
  intro hall
  have h := (hall 1500 500).mp (by norm_num [process_stamp_image_upscales])
  omega

/-- C2 amended: process_stamp_image upscales 3x iff at least one dimension
is below 1000 pixels (the source condition is an OR, not an AND), and it
never downscales: the output dimensions are at least the input dimensions. -/
theorem C2_stamp_upscale_amended (w h : ℕ) :
    (process_stamp_image_upscales w h = true ↔ (w < 1000 ∨ h < 1000)) ∧
    w ≤ (process_stamp_image_size w h).1 ∧
    h ≤ (process_stamp_image_size w h).2 ∧
    (w < 1000 ∨ h < 1000 → process_stamp_image_size w h = (3 * w, 3 * h)) ∧
    (¬(w < 1000 ∨ h < 1000) → process_stamp_image_size w h = (w, h)) := by
  have hfloor : ∀ n : ℕ, (⌊(n : ℚ) * 3⌋).toNat = 3 * n := by
    intro n
    rw [show ((3:ℚ) = ((3:ℕ):ℚ)) by norm_num, ← Nat.cast_mul, Int.floor_natCast]
    omega
  by_cases hc : w < 1000 ∨ h < 1000
  · refine ⟨?_, ?_, ?_, ?_, ?_⟩ <;>
      simp [process_stamp_image_upscales, process_stamp_image_size, hc, hfloor] <;>
      omega
  · refine ⟨?_, ?_, ?_, ?_, ?_⟩ <;>
      simp [process_stamp_image_upscales, process_stamp_image_size, hc, hfloor]

/-- Witness for C2 amended at a concrete small image. -/
theorem C2_stamp_upscale_amended_witness :
    process_stamp_image_size 400 600 = (3 * 400, 3 * 600) :=
  (C2_stamp_upscale_amended 400 600).2.2.2.1 (by omega)

/-!
## Hex color parsing (src/core/pdf_operations.py PDFOperations.hex_to_rgb)

The source parses two-character slices with Python int(slice, 16); that
parser accepts surrounding whitespace, an optional sign, an optional 0x/0X
prefix, and underscores between digits, and raises ValueError otherwise.
It is embedded here exactly (specialized to base 16).
-/

/-- Python hex digits: 0-9, a-f, A-F (by code point). -/
def isHexDigit (c : Char) : Bool :=
  (48 ≤ c.toNat && c.toNat ≤ 57) || (97 ≤ c.toNat && c.toNat ≤ 102) ||
    (65 ≤ c.toNat && c.toNat ≤ 70)

/-- The value of a Python hex digit. -/
def hexDigitVal (c : Char) : ℕ :=
  if 48 ≤ c.toNat ∧ c.toNat ≤ 57 then c.toNat - 48
  else if 97 ≤ c.toNat ∧ c.toNat ≤ 102 then c.toNat - 97 + 10
  else if 65 ≤ c.toNat ∧ c.toNat ≤ 70 then c.toNat - 65 + 10
  else 0

/-- A run of hex digits with single underscores allowed between digits, as
Python int accepts; afterUnderscore tracks that the previous character was
an underscore (which must then be followed by a digit). -/
def hexDigitsRun (acc : ℕ) (afterUnderscore : Bool) : List Char → Option ℕ
  | [] => if afterUnderscore then none else some acc
  | c :: rest =>
    if isHexDigit c then hexDigitsRun (16 * acc + hexDigitVal c) false rest
    else if c = '_' ∧ afterUnderscore = false then hexDigitsRun acc true rest
    else none

/-- A non-empty digit run: the first character must be a hex digit. -/
def parseHexDigits : List Char → Option ℕ
  | [] => none
  | c :: rest => if isHexDigit c then hexDigitsRun (hexDigitVal c) false rest else none

/-- The part of Python int(s, 16) after the optional sign: an optional
0x/0X prefix (with one optional underscore after it), then digits. -/
def parse_int_hex_body (l : List Char) : Option ℕ :=
  match l with
  | '0' :: x :: rest =>
    if x = 'x' ∨ x = 'X' then
      match rest with
      | '_' :: rest2 => parseHexDigits rest2
      | _ => parseHexDigits rest
    else parseHexDigits l
  | _ => parseHexDigits l

/-- Python int(s, 16) over a character list: strip whitespace, optional
sign, prefix and digits; none models ValueError. -/
def py_int_hex (l : List Char) : Option ℤ :=
  match pyStripList l with
  | '+' :: rest => (parse_int_hex_body rest).map Int.ofNat
  | '-' :: rest => (parse_int_hex_body rest).map (fun n => -(n : ℤ))
  | t => (parse_int_hex_body t).map Int.ofNat

/-- Python list/string slicing l[a:b] for 0 ≤ a ≤ b. -/
def pySlice (l : List Char) (a b : ℕ) : List Char :=
  (l.drop a).take (b - a)

/-- The cleanup step of hex_to_rgb: strip whitespace, then strip every
leading # (Python lstrip("#") removes all of them). -/
def hex_clean (s : String) : List Char :=
  (pyStripList s.toList).dropWhile (fun c => c = '#')

/-- The shorthand step of hex_to_rgb: a 3-character string has each
character doubled. -/
def hex_expand (clean0 : List Char) : List Char :=
  if clean0.length = 3 then clean0.flatMap (fun c => [c, c]) else clean0

/-- The parsing step of hex_to_rgb: parse the three 2-character slices; if
any raises ValueError, return black. -/
def hex_parse_rgb (clean : List Char) : ℚ × ℚ × ℚ :=
  match py_int_hex (pySlice clean 0 2), py_int_hex (pySlice clean 2 4),
      py_int_hex (pySlice clean 4 6) with
  | some r, some g, some b => ((r : ℚ) / 255, (g : ℚ) / 255, (b : ℚ) / 255)
  | _, _, _ => (0, 0, 0)

/-- PDFOperations.hex_to_rgb from src/core/pdf_operations.py. -/
def hex_to_rgb (s : String) : ℚ × ℚ × ℚ :=
  hex_parse_rgb (hex_expand (hex_clean s))

/-!
## Lemmas bounding the hex parser
-/

lemma hexDigitVal_lt (c : Char) : hexDigitVal c < 16 := by
  unfold hexDigitVal
  split
  · omega
  · split
    · omega
    · split <;> omega

lemma hexDigitsRun_lt :
    ∀ (cs : List Char) (acc : ℕ) (u : Bool) (n : ℕ),
      hexDigitsRun acc u cs = some n → n < 16 ^ cs.length * (acc + 1) := by
  intro cs
  induction cs with
  | nil =>
    intro acc u n h
    unfold hexDigitsRun at h
    split at h
    · cases h
    · cases h; simp
  | cons c rest ih =>
    intro acc u n h
    unfold hexDigitsRun at h
    split at h
    · have hrec := ih (16 * acc + hexDigitVal c) false n h
      have hv := hexDigitVal_lt c
      calc n < 16 ^ rest.length * (16 * acc + hexDigitVal c + 1) := hrec
        _ ≤ 16 ^ rest.length * (16 * (acc + 1)) :=
          Nat.mul_le_mul_left _ (by omega)
        _ = 16 ^ (c :: rest).length * (acc + 1) := by
          simp only [List.length_cons, pow_succ]; ring
    · split at h
      · have hrec := ih acc true n h
        calc n < 16 ^ rest.length * (acc + 1) := hrec
          _ ≤ 16 ^ (c :: rest).length * (acc + 1) :=
            Nat.mul_le_mul
              (Nat.pow_le_pow_right (by omega)
                (by simp only [List.length_cons]; omega))
              (le_refl _)
      · cases h

lemma parseHexDigits_lt {l : List Char} {n : ℕ} (h : parseHexDigits l = some n) :
    n < 16 ^ l.length := by
  cases l with
  | nil => simp [parseHexDigits] at h
  | cons c rest =>
    rw [show parseHexDigits (c :: rest)
        = if isHexDigit c = true then hexDigitsRun (hexDigitVal c) false rest
          else none from rfl] at h
    by_cases hc : isHexDigit c = true
    · rw [if_pos hc] at h
      have hrec := hexDigitsRun_lt rest (hexDigitVal c) false n h
      have hv := hexDigitVal_lt c
      calc n < 16 ^ rest.length * (hexDigitVal c + 1) := hrec
        _ ≤ 16 ^ rest.length * 16 := Nat.mul_le_mul_left _ (by omega)
        _ = 16 ^ (c :: rest).length := by
          simp only [List.length_cons, pow_succ]
    · rw [if_neg hc] at h
      cases h

lemma parse_int_hex_body_lt {l : List Char} {n : ℕ}
    (h : parse_int_hex_body l = some n) : n < 16 ^ l.length := by
  have mono : ∀ {a b : ℕ}, a ≤ b → (16:ℕ) ^ a ≤ 16 ^ b := by
    intro a b hab; exact Nat.pow_le_pow_right (by omega) hab
  unfold parse_int_hex_body at h
  split at h
  · split at h
    · split at h
      · exact lt_of_lt_of_le (parseHexDigits_lt h)
          (mono (by simp only [List.length_cons]; omega))
      · exact lt_of_lt_of_le (parseHexDigits_lt h)
          (mono (by simp only [List.length_cons]; omega))
    · exact parseHexDigits_lt h
  · exact parseHexDigits_lt h

lemma length_dropWhile_le {α : Type} (p : α → Bool) (l : List α) :
    (l.dropWhile p).length ≤ l.length := by
  induction l with
  | nil => simp
  | cons c rest ih =>
    rw [List.dropWhile_cons]
    split
    · simp only [List.length_cons]; omega
    · simp

lemma pyStripList_length_le (l : List Char) : (pyStripList l).length ≤ l.length := by
  unfold pyStripList
  calc ((l.dropWhile isPySpace).reverse.dropWhile isPySpace).reverse.length
      = ((l.dropWhile isPySpace).reverse.dropWhile isPySpace).length := by
        simp
    _ ≤ (l.dropWhile isPySpace).reverse.length := length_dropWhile_le _ _
    _ = (l.dropWhile isPySpace).length := by simp
    _ ≤ l.length := length_dropWhile_le _ _

/-- Any value Python int(s, 16) accepts from at most two characters lies in
(-16, 256): at most two hex digits, or a sign and a single hex digit. -/
lemma py_int_hex_short_bounds {l : List Char} {v : ℤ}
    (hlen : l.length ≤ 2) (h : py_int_hex l = some v) : -16 < v ∧ v < 256 := by
  have htlen : (pyStripList l).length ≤ 2 := le_trans (pyStripList_length_le l) hlen
  unfold py_int_hex at h
  split at h
  · rename_i rest heq
    have hr : rest.length ≤ 1 := by
      rw [heq] at htlen; simp only [List.length_cons] at htlen; omega
    cases hb : parse_int_hex_body rest with
    | none => rw [hb] at h; cases h
    | some n =>
      rw [hb] at h
      replace h : some ((n : ℤ)) = some v := h
      injection h with h2
      subst h2
      have hlt := parse_int_hex_body_lt hb
      have h16 : (16:ℕ) ^ rest.length ≤ 16 := by
        calc (16:ℕ) ^ rest.length ≤ 16 ^ 1 := Nat.pow_le_pow_right (by omega) hr
          _ = 16 := by norm_num
      constructor <;> omega
  · rename_i rest heq
    have hr : rest.length ≤ 1 := by
      rw [heq] at htlen; simp only [List.length_cons] at htlen; omega
    cases hb : parse_int_hex_body rest with
    | none => rw [hb] at h; cases h
    | some n =>
      rw [hb] at h
      replace h : some (-(n : ℤ)) = some v := h
      injection h with h2
      subst h2
      have hlt := parse_int_hex_body_lt hb
      have h16 : (16:ℕ) ^ rest.length ≤ 16 := by
        calc (16:ℕ) ^ rest.length ≤ 16 ^ 1 := Nat.pow_le_pow_right (by omega) hr
          _ = 16 := by norm_num
      constructor <;> omega
  · cases hb : parse_int_hex_body (pyStripList l) with
    | none => rw [hb] at h; cases h
    | some n =>
      rw [hb] at h
      replace h : some ((n : ℤ)) = some v := h
      injection h with h2
      subst h2
      have hlt := parse_int_hex_body_lt hb
      have h16 : (16:ℕ) ^ (pyStripList l).length ≤ 256 := by
        calc (16:ℕ) ^ (pyStripList l).length ≤ 16 ^ 2 :=
          Nat.pow_le_pow_right (by omega) htlen
          _ = 256 := by norm_num
      constructor <;> omega

/-!
## Claim C9: hex_to_rgb
-/

lemma pySlice_length_le (l : List Char) (a b : ℕ) :
    (pySlice l a b).length ≤ b - a := by
  unfold pySlice
  exact List.length_take_le _ _

lemma pySlice_append_of_le {l extra : List Char} {a b : ℕ}
    (hb : b ≤ l.length) : pySlice (l ++ extra) a b = pySlice l a b := by
  unfold pySlice
  rw [List.drop_append_eq_append_drop, List.take_append_eq_append_take]
  have hdl : (List.drop a l).length = l.length - a := List.length_drop a l
  by_cases ha : a ≤ l.length
  · have h1 : a - l.length = 0 := by omega
    have h2 : b - a - (List.drop a l).length = 0 := by omega
    rw [h1, h2]
    simp
  · have h1 : List.drop a l = [] := List.drop_eq_nil_of_le (by omega)
    have h2 : b - a = 0 := by omega
    rw [h1, h2]
    simp

lemma hex_parse_rgb_bounds (clean : List Char) :
    (-(15 / 255 : ℚ) ≤ (hex_parse_rgb clean).1 ∧ (hex_parse_rgb clean).1 ≤ 1) ∧
    (-(15 / 255 : ℚ) ≤ (hex_parse_rgb clean).2.1 ∧ (hex_parse_rgb clean).2.1 ≤ 1) ∧
    (-(15 / 255 : ℚ) ≤ (hex_parse_rgb clean).2.2 ∧ (hex_parse_rgb clean).2.2 ≤ 1) := by
  have comp : ∀ v : ℤ, -16 < v → v < 256 →
      -(15 / 255 : ℚ) ≤ (v : ℚ) / 255 ∧ (v : ℚ) / 255 ≤ 1 := by
    intro v hlo hhi
    have hlo2 : (-15 : ℚ) ≤ (v : ℚ) := by exact_mod_cast (by omega : (-15 : ℤ) ≤ v)
    have hhi2 : (v : ℚ) ≤ 255 := by exact_mod_cast (by omega : v ≤ (255 : ℤ))
    constructor
    · calc -(15 / 255 : ℚ) = (-15) / 255 := by ring
        _ ≤ (v : ℚ) / 255 := by gcongr
    · rw [div_le_one (by norm_num : (0 : ℚ) < 255)]
      exact hhi2
  cases h1 : py_int_hex (pySlice clean 0 2) with
  | none => simp [hex_parse_rgb, h1] <;> norm_num
  | some r =>
    cases h2 : py_int_hex (pySlice clean 2 4) with
    | none => simp [hex_parse_rgb, h1, h2] <;> norm_num
    | some g =>
      cases h3 : py_int_hex (pySlice clean 4 6) with
      | none => simp [hex_parse_rgb, h1, h2, h3] <;> norm_num
      | some b =>
        have hr := py_int_hex_short_bounds
          (le_trans (pySlice_length_le clean 0 2) (by omega)) h1
        have hg := py_int_hex_short_bounds
          (le_trans (pySlice_length_le clean 2 4) (by omega)) h2
        have hb := py_int_hex_short_bounds
          (le_trans (pySlice_length_le clean 4 6) (by omega)) h3
        simp only [hex_parse_rgb, h1, h2, h3]
        exact ⟨comp r hr.1 hr.2, comp g hg.1 hg.2, comp b hb.1 hb.2⟩

/-- C9 counterexample: the claim says every component of hex_to_rgb lies in
[0, 1], but Python int("-f", 16) = -15, so hex_to_rgb "-f0000" has a
negative red component. -/
theorem C9_hex_to_rgb_counterexample :
    ¬ (∀ s : String,
        0 ≤ (hex_to_rgb s).1 ∧ (hex_to_rgb s).1 ≤ 1 ∧
        0 ≤ (hex_to_rgb s).2.1 ∧ (hex_to_rgb s).2.1 ≤ 1 ∧
        0 ≤ (hex_to_rgb s).2.2 ∧ (hex_to_rgb s).2.2 ≤ 1) := by
  have h1 : hex_expand (hex_clean "-f0000") = ['-', 'f', '0', '0', '0', '0'] := by
    decide
  have h2 : py_int_hex (pySlice ['-', 'f', '0', '0', '0', '0'] 0 2)
      = some (-15) := by decide
  have h3 : py_int_hex (pySlice ['-', 'f', '0', '0', '0', '0'] 2 4)
      = some 0 := by decide
  have h4 : py_int_hex (pySlice ['-', 'f', '0', '0', '0', '0'] 4 6)
      = some 0 := by decide
  have hval : hex_to_rgb "-f0000" = (-15 / 255, 0, 0) := by
    rw [hex_to_rgb, h1]
    simp only [hex_parse_rgb, h2, h3, h4]
    norm_num
  intro hall
  have h := (hall "-f0000").1
  rw [hval] at h
  norm_num at h

/-- C9 amended: hex_to_rgb is total and each component lies in
[-15/255, 1] (Python int accepts a sign, so a two-character slice can parse
as low as -15; without a sign the maximum is 255); a 3-character shorthand
is expanded by doubling each character; if any of the three 2-character
slices fails Python int(slice, 16), the result is black; and characters
beyond the sixth of the cleaned string are ignored. -/
theorem C9_hex_to_rgb_amended (s : String) :
    ((-(15 / 255 : ℚ) ≤ (hex_to_rgb s).1 ∧ (hex_to_rgb s).1 ≤ 1) ∧
     (-(15 / 255 : ℚ) ≤ (hex_to_rgb s).2.1 ∧ (hex_to_rgb s).2.1 ≤ 1) ∧
     (-(15 / 255 : ℚ) ≤ (hex_to_rgb s).2.2 ∧ (hex_to_rgb s).2.2 ≤ 1)) ∧
    (∀ c1 c2 c3 : Char, hex_expand [c1, c2, c3] = [c1, c1, c2, c2, c3, c3]) ∧
    (∀ l : List Char, l.length ≠ 3 → hex_expand l = l) ∧
    (∀ clean : List Char,
      (py_int_hex (pySlice clean 0 2) = none ∨
       py_int_hex (pySlice clean 2 4) = none ∨
       py_int_hex (pySlice clean 4 6) = none) →
      hex_parse_rgb clean = (0, 0, 0)) ∧
    (∀ l extra : List Char, 6 ≤ l.length →
      hex_parse_rgb (l ++ extra) = hex_parse_rgb l) := by
  refine ⟨?_, ?_, ?_, ?_, ?_⟩
  · exact hex_parse_rgb_bounds (hex_expand (hex_clean s))
  · intro c1 c2 c3
    simp [hex_expand]
  · intro l hl
    simp [hex_expand, hl]
  · intro clean h
    cases h1 : py_int_hex (pySlice clean 0 2) with
    | none => simp [hex_parse_rgb, h1]
    | some r =>
      cases h2 : py_int_hex (pySlice clean 2 4) with
      | none => simp [hex_parse_rgb, h1, h2]
      | some g =>
        cases h3 : py_int_hex (pySlice clean 4 6) with
        | none => simp [hex_parse_rgb, h1, h2, h3]
        | some b => simp_all
  · intro l extra hlen
    unfold hex_parse_rgb
    rw [pySlice_append_of_le (by omega), pySlice_append_of_le (by omega),
      pySlice_append_of_le (by omega)]

/-- Witness for C9 amended at concrete inputs. -/
theorem C9_hex_to_rgb_amended_witness :
    hex_parse_rgb ['z', 'z', '0', '0', '0', '0'] = (0, 0, 0) ∧
    hex_expand ['f', 'f', 'f', 'f'] = ['f', 'f', 'f', 'f'] ∧
    hex_parse_rgb (['0', '0', '0', '0', '0', '0'] ++ ['a', 'b'])
      = hex_parse_rgb ['0', '0', '0', '0', '0', '0'] := by
  refine ⟨?_, ?_, ?_⟩
  · exact (C9_hex_to_rgb_amended "").2.2.2.1 ['z', 'z', '0', '0', '0', '0']
      (Or.inl (by decide))
  · exact (C9_hex_to_rgb_amended "").2.2.1 ['f', 'f', 'f', 'f'] (by decide)
  · exact (C9_hex_to_rgb_amended "").2.2.2.2 ['0', '0', '0', '0', '0', '0']
      ['a', 'b'] (by decide)


/-!
## Page selection (src/ui/processing.py _check_selection and
src/ui/pdf_viewer.py parse_custom_pages / is_page_in_selection)

Python sets of page numbers are modelled as lists used up to membership.
-/

/-- Python decimal digits. -/
def isDecDigit (c : Char) : Bool :=
  48 ≤ c.toNat && c.toNat ≤ 57

/-- The value of a decimal digit. -/
def decDigitVal (c : Char) : ℕ :=
  c.toNat - 48

/-- A run of decimal digits with single underscores allowed between digits,
as Python int accepts. -/
def decDigitsRun (acc : ℕ) (afterUnderscore : Bool) : List Char → Option ℕ
  | [] => if afterUnderscore then none else some acc
  | c :: rest =>
    if isDecDigit c then decDigitsRun (10 * acc + decDigitVal c) false rest
    else if c = '_' ∧ afterUnderscore = false then decDigitsRun acc true rest
    else none

/-- A non-empty decimal digit run. -/
def parseDecDigits : List Char → Option ℕ
  | [] => none
  | c :: rest =>
    if isDecDigit c then decDigitsRun (decDigitVal c) false rest else none

/-- Python int(s) in base 10 over a character list: strip whitespace,
optional sign, digits; none models ValueError. -/
def py_int_dec (l : List Char) : Option ℤ :=
  match pyStripList l with
  | '+' :: rest => (parseDecDigits rest).map Int.ofNat
  | '-' :: rest => (parseDecDigits rest).map (fun n => -(n : ℤ))
  | t => (parseDecDigits t).map Int.ofNat

/-- Python s.split(sep) on a single separator character: splits at every
occurrence, an empty string gives one empty token. -/
def splitOnChar (sep : Char) : List Char → List (List Char)
  | [] => [[]]
  | c :: rest =>
    if c = sep then [] :: splitOnChar sep rest
    else
      match splitOnChar sep rest with
      | [] => [[c]]
      | h :: t => (c :: h) :: t

/-- Python part.split(sep, 1) when sep occurs in part: the text before the
first separator and the text after it; none when sep does not occur
(which also models the "sep in part" test). -/
def splitFirst (sep : Char) : List Char → Option (List Char × List Char)
  | [] => none
  | c :: rest =>
    if c = sep then some ([], rest)
    else (splitFirst sep rest).map (fun p => (c :: p.1, p.2))

/-- Python range(s, e + 1) as a list of integers. -/
def int_range_list (s e : ℤ) : List ℤ :=
  (List.range (e + 1 - s).toNat).map (fun i => s + i)

/-- The pages contributed by one comma-separated token in
PDFProcessingThread._check_selection (mode "custom"): ranges are swapped
when reversed, malformed tokens contribute nothing, and NO bound clipping
is applied. -/
def check_selection_part (part0 : List Char) : List ℤ :=
  let part := pyStripList part0
  match splitFirst '-' part with
  | some (a, b) =>
    match py_int_dec a, py_int_dec b with
    | some s0, some e0 =>
      let se := if e0 < s0 then (e0, s0) else (s0, e0)
      int_range_list se.1 se.2
    | _, _ => []
  | none =>
    match py_int_dec part with
    | some p => [p]
    | none => []

/-- The full custom page set of _check_selection. -/
def check_selection_pages : List (List Char) → List ℤ
  | [] => []
  | part :: rest => check_selection_part part ++ check_selection_pages rest

/-- The page_selection / custom_pages keys read by the two evaluators; none
models an absent key. -/
structure SelCfg where
  page_selection : Option String
  custom_pages : Option String

/-- PDFProcessingThread._check_selection from src/ui/processing.py. -/
def check_selection (idx total : ℕ) (cfg : SelCfg) : Bool :=
  let mode := cfg.page_selection.getD "all"
  let custom_str := cfg.custom_pages.getD ""
  let pno := idx + 1
  if mode = "all" then true
  else if mode = "first" then decide (pno = 1)
  else if mode = "last" then decide (pno = total)
  else if mode = "odd" then decide (pno % 2 = 1)
  else if mode = "even" then decide (pno % 2 = 0)
  else if mode = "custom" then
    decide ((pno : ℤ) ∈ check_selection_pages (splitOnChar ',' custom_str.toList))
  else false

/-- The pages contributed by one token in parse_custom_pages from
src/ui/pdf_viewer.py: as in the batch evaluator, but empty tokens are
skipped explicitly and every page is clipped to [1, total]. -/
def parse_custom_pages_part (total_pages : ℕ) (part0 : List Char) : List ℤ :=
  let part := pyStripList part0
  if part = [] then []
  else
    match splitFirst '-' part with
    | some (a, b) =>
      match py_int_dec a, py_int_dec b with
      | some s0, some e0 =>
        let se := if e0 < s0 then (e0, s0) else (s0, e0)
        (int_range_list se.1 se.2).filter
          (fun p => decide (1 ≤ p ∧ p ≤ (total_pages : ℤ)))
      | _, _ => []
    | none =>
      match py_int_dec part with
      | some p => if 1 ≤ p ∧ p ≤ (total_pages : ℤ) then [p] else []
      | none => []

/-- Fold of parse_custom_pages over its comma-separated tokens. -/
def parse_custom_pages_parts (total : ℕ) : List (List Char) → List ℤ
  | [] => []
  | part :: rest =>
    parse_custom_pages_part total part ++ parse_custom_pages_parts total rest

/-- parse_custom_pages from src/ui/pdf_viewer.py. -/
def parse_custom_pages (input_str : String) (total_pages : ℕ) : List ℤ :=
  parse_custom_pages_parts total_pages (splitOnChar ',' input_str.toList)

/-- The page-selection dispatch of is_page_in_selection from
src/ui/pdf_viewer.py, given the already-resolved config. -/
def is_page_in_selection (idx total : ℕ) (cfg : SelCfg) : Bool :=
  let pno := idx + 1
  let mode := cfg.page_selection.getD "all"
  let custom_str := cfg.custom_pages.getD ""
  if mode = "all" then true
  else if mode = "first" then decide (pno = 1)
  else if mode = "last" then decide (pno = total)
  else if mode = "odd" then decide (pno % 2 = 1)
  else if mode = "even" then decide (pno % 2 = 0)
  else if mode = "custom" then
    decide ((pno : ℤ) ∈ parse_custom_pages custom_str total)
  else false

/-- The reference evaluator, written from the claim's words: all is always
true; first iff index 0; last iff index total-1; odd/even by 1-based
parity; custom by membership in the parsed, swapped, clipped set; any
unknown mode is false. -/
def ref_selection (idx total : ℕ) (cfg : SelCfg) : Bool :=
  let mode := cfg.page_selection.getD "all"
  let custom_str := cfg.custom_pages.getD ""
  if mode = "all" then true
  else if mode = "first" then decide (idx = 0)
  else if mode = "last" then decide ((idx : ℤ) = (total : ℤ) - 1)
  else if mode = "odd" then decide ((idx + 1) % 2 = 1)
  else if mode = "even" then decide ((idx + 1) % 2 = 0)
  else if mode = "custom" then
    decide (((idx : ℕ) + 1 : ℤ) ∈ parse_custom_pages custom_str total)
  else false

/-!
## Claim C4: page-selection equivalences
-/

/-- The preview parser clips: one token's contribution is exactly the batch
token's contribution filtered to [1, total]. -/
lemma parse_part_eq_filter (total : ℕ) (part0 : List Char) :
    parse_custom_pages_part total part0
      = (check_selection_part part0).filter
          (fun p => decide (1 ≤ p ∧ p ≤ (total : ℤ))) := by
  simp only [parse_custom_pages_part, check_selection_part]
  by_cases hp : pyStripList part0 = []
  · simp [hp, (by decide : splitFirst '-' ([] : List Char) = none),
      (by decide : py_int_dec ([] : List Char) = none)]
  · simp only [hp, if_false]
    cases hs : splitFirst '-' (pyStripList part0) with
    | some ab =>
      obtain ⟨a, b⟩ := ab
      cases ha : py_int_dec a with
      | none => simp [ha]
      | some s0 =>
        cases hb2 : py_int_dec b with
        | none => simp [ha, hb2]
        | some e0 => simp [ha, hb2]
    | none =>
      cases hv : py_int_dec (pyStripList part0) with
      | none => simp [hv]
      | some p =>
        simp only [hv]
        by_cases hc : 1 ≤ p ∧ p ≤ (total : ℤ)
        · simp [hc]
        · simp [hc]

/-- The full preview set is the batch set filtered to [1, total]. -/
lemma parse_parts_eq_filter (total : ℕ) :
    ∀ parts : List (List Char),
      parse_custom_pages_parts total parts
        = (check_selection_pages parts).filter
            (fun p => decide (1 ≤ p ∧ p ≤ (total : ℤ))) := by
  intro parts
  induction parts with
  | nil => simp [parse_custom_pages_parts, check_selection_pages]
  | cons part rest ih =>
    simp only [parse_custom_pages_parts, check_selection_pages,
      List.filter_append, ih, parse_part_eq_filter]

/-- C4 counterexample: the batch evaluator _check_selection does not clip
its parsed custom set, so at 0-based index 19 with total 10 and custom
string "20" it returns true while the claimed reference (clipped to
[1, total]) yields false. -/
theorem C4_page_selection_counterexample :
    ¬ (∀ (idx total : ℕ) (cfg : SelCfg),
        check_selection idx total cfg = ref_selection idx total cfg) := by
  intro hall
  have h := hall 19 10 ⟨some "custom", some "20"⟩
  rw [(by decide : check_selection 19 10 ⟨some "custom", some "20"⟩ = true)] at h
  rw [(by decide : ref_selection 19 10 ⟨some "custom", some "20"⟩ = false)] at h
  cases h

/-- C4 amended: the batch evaluator matches the claimed reference for every
index below total (for an in-range page the missing clipping is
unobservable); the preview evaluator matches the reference at every index
and total; parse_custom_pages("1,20,50", 10) keeps only page 1; and every
unknown mode yields false at every index. -/
theorem C4_page_selection_amended :
    (∀ (idx total : ℕ) (cfg : SelCfg), idx < total →
      check_selection idx total cfg = ref_selection idx total cfg) ∧
    (∀ (idx total : ℕ) (cfg : SelCfg),
      is_page_in_selection idx total cfg = ref_selection idx total cfg) ∧
    parse_custom_pages "1,20,50" 10 = [1] ∧
    (∀ (idx total : ℕ) (mode custom : String),
      mode ∉ (["all", "first", "last", "odd", "even", "custom"] : List String) →
      check_selection idx total ⟨some mode, some custom⟩ = false) := by
  have hfirst : ∀ idx : ℕ, (idx + 1 = 1) ↔ (idx = 0) := by omega
  have hlast : ∀ idx total : ℕ,
      (idx + 1 = total) ↔ ((idx : ℤ) = (total : ℤ) - 1) := by omega
  refine ⟨?_, ?_, by decide, ?_⟩
  · intro idx total cfg hlt
    have hmem : ((idx : ℤ) + 1 ∈ check_selection_pages
          (splitOnChar ',' (cfg.custom_pages.getD "").toList)) ↔
        ((idx : ℤ) + 1 ∈ parse_custom_pages (cfg.custom_pages.getD "") total) := by
      rw [parse_custom_pages, parse_parts_eq_filter]
      simp only [List.mem_filter, decide_eq_true_eq]
      constructor
      · intro hm
        exact ⟨hm, by omega, by omega⟩
      · exact fun hm => hm.1
    simp only [check_selection, ref_selection]
    by_cases h1 : cfg.page_selection.getD "all" = "all"
    · simp [h1]
    by_cases h2 : cfg.page_selection.getD "all" = "first"
    · simp [h1, h2, hfirst]
    by_cases h3 : cfg.page_selection.getD "all" = "last"
    · simp [h1, h2, h3, hlast]
    by_cases h4 : cfg.page_selection.getD "all" = "odd"
    · simp [h1, h2, h3, h4]
    by_cases h5 : cfg.page_selection.getD "all" = "even"
    · simp [h1, h2, h3, h4, h5]
    by_cases h6 : cfg.page_selection.getD "all" = "custom"
    · simp only [h6, eq_false (by decide : ¬("custom" = "all")),
        eq_false (by decide : ¬("custom" = "first")),
        eq_false (by decide : ¬("custom" = "last")),
        eq_false (by decide : ¬("custom" = "odd")),
        eq_false (by decide : ¬("custom" = "even")),
        eq_self_iff_true, if_false, if_true]
      rw [decide_eq_decide]
      push_cast
      exact hmem
    · simp [h1, h2, h3, h4, h5, h6]
  · intro idx total cfg
    simp only [is_page_in_selection, ref_selection]
    by_cases h1 : cfg.page_selection.getD "all" = "all"
    · simp [h1]
    by_cases h2 : cfg.page_selection.getD "all" = "first"
    · simp [h1, h2, hfirst]
    by_cases h3 : cfg.page_selection.getD "all" = "last"
    · simp [h1, h2, h3, hlast]
    by_cases h4 : cfg.page_selection.getD "all" = "odd"
    · simp [h1, h2, h3, h4]
    by_cases h5 : cfg.page_selection.getD "all" = "even"
    · simp [h1, h2, h3, h4, h5]
    by_cases h6 : cfg.page_selection.getD "all" = "custom"
    · simp only [h6, eq_false (by decide : ¬("custom" = "all")),
        eq_false (by decide : ¬("custom" = "first")),
        eq_false (by decide : ¬("custom" = "last")),
        eq_false (by decide : ¬("custom" = "odd")),
        eq_false (by decide : ¬("custom" = "even")),
        eq_self_iff_true, if_false, if_true]
      rw [decide_eq_decide]
      push_cast
      exact Iff.rfl
    · simp [h1, h2, h3, h4, h5, h6]
  · intro idx total mode custom h
    simp only [List.mem_cons, List.mem_singleton] at h
    push_neg at h
    obtain ⟨n1, n2, n3, n4, n5, n6⟩ := h
    simp [check_selection, n1, n2, n3, n4, n5, n6]

/-- Witness for C4 amended at concrete inputs. -/
theorem C4_page_selection_amended_witness :
    check_selection 2 5 ⟨some "odd", some ""⟩
      = ref_selection 2 5 ⟨some "odd", some ""⟩ ∧
    check_selection 0 3 ⟨some "banana", some "1"⟩ = false :=
  ⟨C4_page_selection_amended.1 2 5 ⟨some "odd", some ""⟩ (by omega),
   C4_page_selection_amended.2.2.2 0 3 "banana" "1" (by decide)⟩

/-!
## Filename substitution engine (src/core/substitution_engine.py)

SubstitutionEngine.apply works on the template text and the map extracted
from the filename. The extraction step (re.search over the definition
regexes) happens before apply's two passes and is quantified over here as
an arbitrary extracted map. Strings are lists of characters; the regex
word class is modelled for the source's ASCII identifiers.
-/

/-- A regex word character (the regex word class over ASCII): letter,
digit or underscore. -/
def isWordChar (c : Char) : Bool :=
  c.isAlphanum || c = '_'

/-- Lookup in the extracted map (Python dict access by key). -/
def lookupExt (ext : List (List Char × List Char)) (k : List Char) :
    Option (List Char) :=
  (ext.find? (fun e => decide (e.1 = k))).map Prod.snd

/-- re.fullmatch of a dollar sign with a word group on a stripped line:
exactly one dollar sign followed by one or more word characters; returns
the captured identifier. -/
def fullmatch_placeholder (l : List Char) : Option (List Char) :=
  match l with
  | '$' :: rest => if rest ≠ [] ∧ rest.all isWordChar then some rest else none
  | _ => none

/-- Whether the line filter of SubstitutionEngine.apply keeps a line: a
line is dropped only when, after trimming, it is exactly a placeholder
whose identifier is absent from the extracted map. -/
def keep_line (ext : List (List Char × List Char)) (line : List Char) : Bool :=
  match fullmatch_placeholder (pyStripList line) with
  | some key => (lookupExt ext key).isSome
  | none => true

/-- The filter_lines pass of SubstitutionEngine.apply: returns the kept
lines and the identifiers of dropped lines (recorded as missing), in
order. -/
def filter_lines (ext : List (List Char × List Char)) :
    List (List Char) → List (List Char) × List (List Char)
  | [] => ([], [])
  | line :: rest =>
    let r := filter_lines ext rest
    match fullmatch_placeholder (pyStripList line) with
    | some key =>
      if (lookupExt ext key).isSome then (line :: r.1, r.2)
      else (r.1, key :: r.2)
    | none => (line :: r.1, r.2)

/-- One step of the re.sub scan with explicit fuel (the wrapper always
supplies enough fuel, so the 0-fuel arm is never reached): at a dollar
sign take the maximal run of word characters; a non-empty run is a token,
replaced by its extracted value or by nothing (recording the identifier
as missing); a bare dollar sign is kept. -/
def re_sub_fuel (ext : List (List Char × List Char)) :
    ℕ → List Char → List Char × List (List Char)
  | _, [] => ([], [])
  | 0, _ :: _ => ([], [])
  | fuel + 1, c :: rest =>
    if c = '$' then
      let tok := rest.takeWhile isWordChar
      if tok = [] then
        let r := re_sub_fuel ext fuel rest
        ('$' :: r.1, r.2)
      else
        let r := re_sub_fuel ext fuel (rest.dropWhile isWordChar)
        match lookupExt ext tok with
        | some v => (v ++ r.1, r.2)
        | none => (r.1, tok :: r.2)
    else
      let r := re_sub_fuel ext fuel rest
      (c :: r.1, r.2)

/-- re.sub of dollar-sign tokens with the replace_token callback: scan the
text left to right, returning the rewritten text and the missing
identifiers in scan order. -/
def re_sub_dollar (ext : List (List Char × List Char)) (l : List Char) :
    List Char × List (List Char) :=
  re_sub_fuel ext l.length l

/-- Scanning an empty text gives nothing at any fuel. -/
lemma re_sub_fuel_nil (ext : List (List Char × List Char)) (f : ℕ) :
    re_sub_fuel ext f [] = ([], []) := by
  cases f <;> rfl

/-- The scan never consumes more characters than it has fuel for, so any
sufficient fuel computes the same result. -/
lemma re_sub_fuel_congr (ext : List (List Char × List Char)) :
    ∀ (f1 f2 : ℕ) (l : List Char), l.length ≤ f1 → l.length ≤ f2 →
      re_sub_fuel ext f1 l = re_sub_fuel ext f2 l := by
  intro f1
  induction f1 using Nat.strong_induction_on with
  | _ f1 ih =>
    intro f2 l h1 h2
    cases l with
    | nil => rw [re_sub_fuel_nil, re_sub_fuel_nil]
    | cons c rest =>
      simp only [List.length_cons] at h1 h2
      match f1, f2 with
      | 0, _ => omega
      | _ + 1, 0 => omega
      | g1 + 1, g2 + 1 =>
        have hr : rest.length ≤ g1 := by omega
        have hr2 : rest.length ≤ g2 := by omega
        have hd1 : (rest.dropWhile isWordChar).length ≤ g1 :=
          le_trans (length_dropWhile_le isWordChar rest) hr
        have hd2 : (rest.dropWhile isWordChar).length ≤ g2 :=
          le_trans (length_dropWhile_le isWordChar rest) hr2
        show (if c = '$' then _ else _) = (if c = '$' then _ else _)
        by_cases hc : c = '$'
        · simp only [hc, if_true, ite_true]
          by_cases ht : rest.takeWhile isWordChar = []
          · simp only [ht, if_true, ite_true,
              ih g1 (by omega) g2 rest hr hr2]
          · simp only [ht, if_false, ite_false,
              ih g1 (by omega) g2 (rest.dropWhile isWordChar) hd1 hd2]
        · simp only [hc, if_false, ite_false,
            ih g1 (by omega) g2 rest hr hr2]

/-- Unfolding re_sub_dollar past a non-dollar character. -/
lemma re_sub_dollar_cons_ne (ext : List (List Char × List Char))
    {c : Char} (rest : List Char) (hc : c ≠ '$') :
    re_sub_dollar ext (c :: rest)
      = ((c :: (re_sub_dollar ext rest).1), (re_sub_dollar ext rest).2) := by
  show re_sub_fuel ext (rest.length + 1) (c :: rest) = _
  rw [re_sub_fuel]
  simp only [hc, if_false, ite_false]
  rfl

/-- Unfolding re_sub_dollar past a bare dollar sign (no word character
follows, so the regex does not match here). -/
lemma re_sub_dollar_cons_bare (ext : List (List Char × List Char))
    (rest : List Char) (ht : rest.takeWhile isWordChar = []) :
    re_sub_dollar ext ('$' :: rest)
      = (('$' :: (re_sub_dollar ext rest).1), (re_sub_dollar ext rest).2) := by
  show re_sub_fuel ext (rest.length + 1) ('$' :: rest) = _
  rw [re_sub_fuel]
  simp only [ht, if_true, ite_true, if_pos rfl]
  rfl

/-- Unfolding re_sub_dollar at a matched token. -/
lemma re_sub_dollar_cons_tok (ext : List (List Char × List Char))
    (rest : List Char) (ht : rest.takeWhile isWordChar ≠ []) :
    re_sub_dollar ext ('$' :: rest)
      = (match lookupExt ext (rest.takeWhile isWordChar) with
        | some v => (v ++ (re_sub_dollar ext (rest.dropWhile isWordChar)).1,
            (re_sub_dollar ext (rest.dropWhile isWordChar)).2)
        | none => ((re_sub_dollar ext (rest.dropWhile isWordChar)).1,
            rest.takeWhile isWordChar
              :: (re_sub_dollar ext (rest.dropWhile isWordChar)).2)) := by
  show re_sub_fuel ext (rest.length + 1) ('$' :: rest) = _
  rw [re_sub_fuel]
  simp only [ht, if_false, ite_false, if_pos rfl]
  rw [re_sub_fuel_congr ext rest.length (rest.dropWhile isWordChar).length
    (rest.dropWhile isWordChar) (length_dropWhile_le isWordChar rest) (le_refl _)]
  rfl

/-- Joining lines back with a newline character. -/
def intercalate_nl : List (List Char) → List Char
  | [] => []
  | [l] => l
  | l :: rest => l ++ '\n' :: intercalate_nl rest

/-- Insert keys into the ordered missing-key dict, skipping keys already
present (Python dict assignment keeps first-insertion order). -/
def record_missing (acc : List (List Char)) : List (List Char) → List (List Char)
  | [] => acc
  | k :: ks => record_missing (if k ∈ acc then acc else acc ++ [k]) ks

/-- SubstitutionEngine.apply from src/core/substitution_engine.py, over the
template text and the extracted map: drop bare unresolved placeholder
lines, join, substitute inline tokens, and return the text with the
ordered missing-identifier set. -/
def substitution_apply (text : List Char) (ext : List (List Char × List Char)) :
    List Char × List (List Char) :=
  let lines := splitOnChar '\n' text
  let fl := filter_lines ext lines
  let processed := intercalate_nl fl.1
  let r := re_sub_dollar ext processed
  (r.1, record_missing (record_missing [] fl.2) r.2)

/-!
## Claim C6: lemmas about the substitution scan
-/

lemma takeWhile_append_of_all {α : Type} (p : α → Bool) {l1 : List α}
    (l2 : List α) (h : l1.all p = true) :
    (l1 ++ l2).takeWhile p = l1 ++ l2.takeWhile p := by
  induction l1 with
  | nil => simp
  | cons c rest ih =>
    simp only [List.all_cons, Bool.and_eq_true] at h
    simp [List.takeWhile_cons, h.1, ih h.2]

lemma dropWhile_append_of_all {α : Type} (p : α → Bool) {l1 : List α}
    (l2 : List α) (h : l1.all p = true) :
    (l1 ++ l2).dropWhile p = l2.dropWhile p := by
  induction l1 with
  | nil => simp
  | cons c rest ih =>
    simp only [List.all_cons, Bool.and_eq_true] at h
    simp [List.dropWhile_cons, h.1, ih h.2]

lemma takeWhile_append_of_not_all {α : Type} (p : α → Bool) {l1 : List α}
    (l2 : List α) (h : l1.all p = false) :
    (l1 ++ l2).takeWhile p = l1.takeWhile p := by
  induction l1 with
  | nil => simp at h
  | cons c rest ih =>
    simp only [List.all_cons, Bool.and_eq_false_iff] at h
    rcases h with h | h
    · simp [List.takeWhile_cons, h]
    · by_cases hc : p c = true
      · simp [List.takeWhile_cons, hc, ih h]
      · simp only [Bool.not_eq_true] at hc
        simp [List.takeWhile_cons, hc]

lemma dropWhile_append_of_not_all {α : Type} (p : α → Bool) {l1 : List α}
    (l2 : List α) (h : l1.all p = false) :
    (l1 ++ l2).dropWhile p = l1.dropWhile p ++ l2 := by
  induction l1 with
  | nil => simp at h
  | cons c rest ih =>
    simp only [List.all_cons, Bool.and_eq_false_iff] at h
    rcases h with h | h
    · simp [List.dropWhile_cons, h]
    · by_cases hc : p c = true
      · simp [List.dropWhile_cons, hc, ih h]
      · simp only [Bool.not_eq_true] at hc
        simp [List.dropWhile_cons, hc]

lemma dropWhile_eq_self_of_takeWhile_nil {α : Type} {p : α → Bool}
    {l : List α} (h : l.takeWhile p = []) : l.dropWhile p = l := by
  cases l with
  | nil => rfl
  | cons c rest =>
    rw [List.takeWhile_cons] at h
    rw [List.dropWhile_cons]
    by_cases hc : p c = true
    · rw [if_pos hc] at h
      cases h
    · simp [hc]

lemma takeWhile_eq_self_of_all {α : Type} {p : α → Bool} {l : List α}
    (h : l.all p = true) : l.takeWhile p = l := by
  induction l with
  | nil => rfl
  | cons c rest ih =>
    simp only [List.all_cons, Bool.and_eq_true] at h
    simp [List.takeWhile_cons, h.1, ih h.2]

lemma dropWhile_eq_nil_of_all {α : Type} {p : α → Bool} {l : List α}
    (h : l.all p = true) : l.dropWhile p = [] := by
  induction l with
  | nil => rfl
  | cons c rest ih =>
    simp only [List.all_cons, Bool.and_eq_true] at h
    simp [List.dropWhile_cons, h.1, ih h.2]

/-- The inline scan distributes over a newline: a token never spans a line
break because a newline is not a word character. -/
lemma re_sub_append_nl (ext : List (List Char × List Char)) (b : List Char) :
    ∀ (n : ℕ) (a : List Char), a.length ≤ n →
      re_sub_dollar ext (a ++ '\n' :: b)
        = ((re_sub_dollar ext a).1 ++ '\n' :: (re_sub_dollar ext b).1,
           (re_sub_dollar ext a).2 ++ (re_sub_dollar ext b).2) := by
  intro n
  induction n with
  | zero =>
    intro a ha
    have : a = [] := List.length_eq_zero.mp (by omega)
    subst this
    rw [List.nil_append,
      re_sub_dollar_cons_ne ext b (by decide : ('\n' : Char) ≠ '$')]
    rfl
  | succ n ih =>
    intro a ha
    cases a with
    | nil =>
      rw [List.nil_append,
        re_sub_dollar_cons_ne ext b (by decide : ('\n' : Char) ≠ '$')]
      rfl
    | cons c a2 =>
      simp only [List.length_cons] at ha
      have ha2 : a2.length ≤ n := by omega
      by_cases hc : c = '$'
      · subst hc
        by_cases hall : a2.all isWordChar = true
        · have htw : (a2 ++ '\n' :: b).takeWhile isWordChar = a2 := by
            rw [takeWhile_append_of_all isWordChar _ hall]
            simp [List.takeWhile_cons, (by decide : isWordChar '\n' = false)]
          cases ha2e : a2 with
          | nil =>
            subst ha2e
            rw [List.cons_append, List.nil_append,
              re_sub_dollar_cons_bare ext ('\n' :: b)
                (by simp [List.takeWhile_cons,
                  (by decide : isWordChar '\n' = false)]),
              re_sub_dollar_cons_ne ext b (by decide : ('\n' : Char) ≠ '$'),
              re_sub_dollar_cons_bare ext [] (by rfl)]
            rfl
          | cons d a3 =>
            rw [← ha2e]
            have hne : a2 ≠ [] := by rw [ha2e]; simp
            have hdw : (a2 ++ '\n' :: b).dropWhile isWordChar = '\n' :: b := by
              rw [dropWhile_append_of_all isWordChar _ hall]
              simp [List.dropWhile_cons, (by decide : isWordChar '\n' = false)]
            rw [List.cons_append,
              re_sub_dollar_cons_tok ext (a2 ++ '\n' :: b) (by rw [htw]; exact hne),
              htw, hdw,
              re_sub_dollar_cons_tok ext a2
                (by rw [takeWhile_eq_self_of_all hall]; exact hne),
              takeWhile_eq_self_of_all hall, dropWhile_eq_nil_of_all hall,
              re_sub_dollar_cons_ne ext b (by decide : ('\n' : Char) ≠ '$')]
            cases hlk : lookupExt ext a2 <;> simp [hlk, re_sub_dollar, re_sub_fuel_nil]
        · have hallf : a2.all isWordChar = false := by
            cases h2 : a2.all isWordChar
            · rfl
            · exact absurd h2 hall
          by_cases ht : a2.takeWhile isWordChar = []
          · have htw : (a2 ++ '\n' :: b).takeWhile isWordChar = [] := by
              rw [takeWhile_append_of_not_all isWordChar _ hallf, ht]
            rw [List.cons_append,
              re_sub_dollar_cons_bare ext (a2 ++ '\n' :: b) htw,
              re_sub_dollar_cons_bare ext a2 ht,
              ih a2 ha2]
            rfl
          · have htw : (a2 ++ '\n' :: b).takeWhile isWordChar
                = a2.takeWhile isWordChar := by
              rw [takeWhile_append_of_not_all isWordChar _ hallf]
            have hdw : (a2 ++ '\n' :: b).dropWhile isWordChar
                = a2.dropWhile isWordChar ++ '\n' :: b := by
              rw [dropWhile_append_of_not_all isWordChar _ hallf]
            have hdlen : (a2.dropWhile isWordChar).length ≤ n :=
              le_trans (length_dropWhile_le isWordChar a2) ha2
            rw [List.cons_append,
              re_sub_dollar_cons_tok ext (a2 ++ '\n' :: b) (by rw [htw]; exact ht),
              htw, hdw,
              re_sub_dollar_cons_tok ext a2 ht,
              ih (a2.dropWhile isWordChar) hdlen]
            cases hlk : lookupExt ext (a2.takeWhile isWordChar) <;> simp [hlk]
      · rw [List.cons_append,
          re_sub_dollar_cons_ne ext (a2 ++ '\n' :: b) hc,
          re_sub_dollar_cons_ne ext a2 hc,
          ih a2 ha2]
        rfl

/-- Substituting the joined kept lines equals joining the per-line
substitutions. -/
lemma re_sub_intercalate (ext : List (List Char × List Char)) :
    ∀ ls : List (List Char),
      (re_sub_dollar ext (intercalate_nl ls)).1
        = intercalate_nl (ls.map (fun l => (re_sub_dollar ext l).1)) := by
  intro ls
  induction ls with
  | nil => rfl
  | cons l rest ih =>
    cases rest with
    | nil => rfl
    | cons l2 rest2 =>
      show (re_sub_dollar ext (l ++ '\n' :: intercalate_nl (l2 :: rest2))).1 = _
      rw [re_sub_append_nl ext (intercalate_nl (l2 :: rest2)) l.length l (le_refl _)]
      show (re_sub_dollar ext l).1 ++ '\n'
          :: (re_sub_dollar ext (intercalate_nl (l2 :: rest2))).1 = _
      rw [ih]
      rfl

/-- The kept lines of the filter pass are exactly the keep_line filter. -/
lemma filter_lines_fst (ext : List (List Char × List Char)) :
    ∀ lines : List (List Char),
      (filter_lines ext lines).1 = lines.filter (keep_line ext) := by
  intro lines
  induction lines with
  | nil => rfl
  | cons line rest ih =>
    simp only [filter_lines, List.filter_cons]
    split
    · rename_i key heq
      by_cases hk : (lookupExt ext key).isSome = true <;>
        simp [keep_line, heq, hk, ih]
    · rename_i heq
      simp [keep_line, heq, ih]

/-- Identifiers recorded by the filter pass are absent from the map. -/
lemma filter_lines_missing_lookup (ext : List (List Char × List Char)) :
    ∀ (lines : List (List Char)) (k : List Char),
      k ∈ (filter_lines ext lines).2 → lookupExt ext k = none := by
  intro lines
  induction lines with
  | nil => intro k h; simp [filter_lines] at h
  | cons line rest ih =>
    intro k h
    simp only [filter_lines] at h
    split at h
    · rename_i key heq
      by_cases hk : (lookupExt ext key).isSome = true
      · rw [if_pos hk] at h
        exact ih k h
      · rw [if_neg hk] at h
        simp at h
        rcases h with h | h
        · subst h
          exact Option.not_isSome_iff_eq_none.mp hk
        · exact ih k h
    · exact ih k h

/-- Identifiers recorded by the inline scan are absent from the map. -/
lemma re_sub_missing_lookup (ext : List (List Char × List Char)) :
    ∀ (n : ℕ) (l : List Char), l.length ≤ n →
      ∀ k ∈ (re_sub_dollar ext l).2, lookupExt ext k = none := by
  intro n
  induction n with
  | zero =>
    intro l hl k h
    have : l = [] := List.length_eq_zero.mp (by omega)
    subst this
    simp [re_sub_dollar, re_sub_fuel_nil] at h
  | succ n ih =>
    intro l hl k h
    cases l with
    | nil => simp [re_sub_dollar, re_sub_fuel_nil] at h
    | cons c rest =>
      simp only [List.length_cons] at hl
      have hr : rest.length ≤ n := by omega
      by_cases hc : c = '$'
      · subst hc
        by_cases ht : rest.takeWhile isWordChar = []
        · rw [re_sub_dollar_cons_bare ext rest ht] at h
          exact ih rest hr k h
        · rw [re_sub_dollar_cons_tok ext rest ht] at h
          have hd : (rest.dropWhile isWordChar).length ≤ n :=
            le_trans (length_dropWhile_le isWordChar rest) hr
          cases hlk : lookupExt ext (rest.takeWhile isWordChar) with
          | some v =>
            rw [hlk] at h
            exact ih (rest.dropWhile isWordChar) hd k h
          | none =>
            rw [hlk] at h
            simp only [List.mem_cons] at h
            rcases h with h | h
            · subst h; exact hlk
            · exact ih (rest.dropWhile isWordChar) hd k h
      · rw [re_sub_dollar_cons_ne ext rest hc] at h
        exact ih rest hr k h

/-- Membership in the ordered missing-key dict. -/
lemma mem_record_missing :
    ∀ (ks acc : List (List Char)) (k : List Char),
      k ∈ record_missing acc ks ↔ k ∈ acc ∨ k ∈ ks := by
  intro ks
  induction ks with
  | nil => intro acc k; simp [record_missing]
  | cons k0 rest ih =>
    intro acc k
    simp only [record_missing, ih, List.mem_cons]
    by_cases hk : k0 ∈ acc
    · simp only [hk, if_true, ite_true]
      constructor
      · rintro (h | h)
        · exact Or.inl h
        · exact Or.inr (Or.inr h)
      · rintro (h | h | h)
        · exact Or.inl h
        · subst h; exact Or.inl hk
        · exact Or.inr h
    · simp only [hk, if_false, ite_false, List.mem_append, List.mem_singleton]
      constructor
      · rintro ((h | h) | h)
        · exact Or.inl h
        · exact Or.inr (Or.inl h)
        · exact Or.inr (Or.inr h)
      · rintro (h | h | h)
        · exact Or.inl (Or.inl h)
        · exact Or.inl (Or.inr h)
        · exact Or.inr h

/-- Inline behaviour of a resolved or missing token followed by a
non-word continuation. -/
lemma re_sub_token (ext : List (List Char × List Char))
    (tok rest : List Char) (htok : tok ≠ [])
    (hall : tok.all isWordChar = true)
    (hrest : rest.takeWhile isWordChar = []) :
    re_sub_dollar ext ('$' :: (tok ++ rest))
      = (match lookupExt ext tok with
        | some v => (v ++ (re_sub_dollar ext rest).1, (re_sub_dollar ext rest).2)
        | none => ((re_sub_dollar ext rest).1, tok :: (re_sub_dollar ext rest).2)) := by
  have htw : (tok ++ rest).takeWhile isWordChar = tok := by
    rw [takeWhile_append_of_all isWordChar _ hall, hrest, List.append_nil]
  have hdw : (tok ++ rest).dropWhile isWordChar = rest := by
    rw [dropWhile_append_of_all isWordChar _ hall,
      dropWhile_eq_self_of_takeWhile_nil hrest]
  rw [re_sub_dollar_cons_tok ext (tok ++ rest) (by rw [htw]; exact htok), htw, hdw]

/-- C6: SubstitutionEngine.apply is the claimed two-pass rewrite: the
output text is the per-line inline substitution of exactly the lines that
survive the filter; a line is dropped iff its trimmed form is exactly a
placeholder whose identifier is unresolved (so a resolved sole-placeholder
line is kept); an inline token is replaced by its value when present and
by the empty string (and recorded missing) when absent; and every
recorded missing identifier is genuinely absent from the extracted map,
with dropped-line identifiers always recorded. -/
theorem C6_substitution_apply (text : List Char)
    (ext : List (List Char × List Char)) :
    ((substitution_apply text ext).1
      = intercalate_nl (((splitOnChar '\n' text).filter (keep_line ext)).map
          (fun l => (re_sub_dollar ext l).1))) ∧
    (∀ line : List Char, keep_line ext line = false ↔
      ∃ key, fullmatch_placeholder (pyStripList line) = some key ∧
        lookupExt ext key = none) ∧
    (∀ (line key v : List Char),
      fullmatch_placeholder (pyStripList line) = some key →
      lookupExt ext key = some v → keep_line ext line = true) ∧
    (∀ (tok rest v : List Char), tok ≠ [] → tok.all isWordChar = true →
      rest.takeWhile isWordChar = [] → lookupExt ext tok = some v →
      (re_sub_dollar ext ('$' :: (tok ++ rest))).1
        = v ++ (re_sub_dollar ext rest).1) ∧
    (∀ tok rest : List Char, tok ≠ [] → tok.all isWordChar = true →
      rest.takeWhile isWordChar = [] → lookupExt ext tok = none →
      (re_sub_dollar ext ('$' :: (tok ++ rest))).1 = (re_sub_dollar ext rest).1 ∧
      tok ∈ (re_sub_dollar ext ('$' :: (tok ++ rest))).2) ∧
    (∀ k : List Char, k ∈ (substitution_apply text ext).2 →
      lookupExt ext k = none) ∧
    (∀ k : List Char, k ∈ (filter_lines ext (splitOnChar '\n' text)).2 →
      k ∈ (substitution_apply text ext).2) := by
  refine ⟨?_, ?_, ?_, ?_, ?_, ?_, ?_⟩
  · show (re_sub_dollar ext
        (intercalate_nl (filter_lines ext (splitOnChar '\n' text)).1)).1 = _
    rw [filter_lines_fst, re_sub_intercalate]
  · intro line
    cases hm : fullmatch_placeholder (pyStripList line) with
    | none => simp [keep_line, hm]
    | some key =>
      cases hlk : lookupExt ext key with
      | none => simp [keep_line, hm, hlk]
      | some v => simp [keep_line, hm, hlk]
  · intro line key v hm hv
    simp [keep_line, hm, hv]
  · intro tok rest v htok hall hrest hlk
    rw [re_sub_token ext tok rest htok hall hrest, hlk]
  · intro tok rest htok hall hrest hlk
    rw [re_sub_token ext tok rest htok hall hrest, hlk]
    exact ⟨rfl, by simp⟩
  · intro k hk
    show lookupExt ext k = none
    have hk2 : k ∈ record_missing
        (record_missing [] (filter_lines ext (splitOnChar '\n' text)).2)
        (re_sub_dollar ext
          (intercalate_nl (filter_lines ext (splitOnChar '\n' text)).1)).2 := hk
    rw [mem_record_missing] at hk2
    rcases hk2 with hk2 | hk2
    · rw [mem_record_missing] at hk2
      rcases hk2 with hk2 | hk2
      · simp at hk2
      · exact filter_lines_missing_lookup ext _ k hk2
    · exact re_sub_missing_lookup ext
        (intercalate_nl (filter_lines ext (splitOnChar '\n' text)).1).length
        _ (le_refl _) k hk2
  · intro k hk
    show k ∈ record_missing
        (record_missing [] (filter_lines ext (splitOnChar '\n' text)).2)
        (re_sub_dollar ext
          (intercalate_nl (filter_lines ext (splitOnChar '\n' text)).1)).2
    rw [mem_record_missing]
    left
    rw [mem_record_missing]
    right
    exact hk

/-- Witness for C6 at a concrete map and template pieces. -/
theorem C6_substitution_apply_witness :
    keep_line [(['k'], ['v'])] ('$' :: ['k']) = true ∧
    (re_sub_dollar [(['k'], ['v'])] ('$' :: (['k'] ++ [' ']))).1
      = ['v'] ++ (re_sub_dollar [(['k'], ['v'])] [' ']).1 := by
  constructor
  · exact (C6_substitution_apply [] [(['k'], ['v'])]).2.2.1 ('$' :: ['k']) ['k'] ['v']
      (by decide) (by decide)
  · exact (C6_substitution_apply [] [(['k'], ['v'])]).2.2.2.1 ['k'] [' '] ['v']
      (by decide) (by decide) (by decide) (by decide)

/-!
## Batch engine, error accounting view (src/ui/processing.py
PDFProcessingThread.run)

The per-file try block opens the PDF, applies the enabled features to
every page and saves the output; all of that happens inside external
library calls (fitz, PIL, the file system) whose success or failure is
the outcome of the file. The loop structure, the interruption check, the
error message format and the counters are embedded exactly; the body of
one file's try block is abstracted as an Except-valued outcome per file.
-/

/-- os.path.basename on a slash-separated path. -/
def basename (p : String) : String :=
  String.mk ((splitOnChar '/' p.toList).getLastD p.toList)

/-- What run() reports through finished_processing. -/
structure BatchResult where
  canceled : Bool
  success_count : ℕ
  error_count : ℕ
  errors : List String
deriving DecidableEq

/-- The file loop of PDFProcessingThread.run: check the interruption flag
at the top of each iteration (break, reporting canceled); otherwise the
file's outcome either increments success_count or appends
"Failed basename: e" and increments error_count, and the loop continues
with the next file either way. -/
def run_files (outcome : String → Except String Unit) (interrupted : ℕ → Bool) :
    ℕ → List String → ℕ → ℕ → List String → BatchResult
  | _, [], s, e, errs => ⟨false, s, e, errs⟩
  | idx, pdf_path :: rest, s, e, errs =>
    if interrupted idx then ⟨true, s, e, errs⟩
    else
      match outcome pdf_path with
      | Except.ok _ => run_files outcome interrupted (idx + 1) rest (s + 1) e errs
      | Except.error msg =>
        run_files outcome interrupted (idx + 1) rest s (e + 1)
          (errs ++ ["Failed " ++ basename pdf_path ++ ": " ++ msg])

/-- PDFProcessingThread.run, error-accounting view: process the files from
index 0 with zeroed counters. -/
def pdf_processing_run (files : List String)
    (outcome : String → Except String Unit) (interrupted : ℕ → Bool) :
    BatchResult :=
  run_files outcome interrupted 0 files 0 0 []

/-- How many files the loop attempts: those before the first iteration at
which the interruption flag is seen. -/
def attempted_count (interrupted : ℕ → Bool) : ℕ → List String → ℕ
  | _, [] => 0
  | idx, _ :: rest =>
    if interrupted idx then 0 else 1 + attempted_count interrupted (idx + 1) rest

/-!
## Claim C8: lemmas
-/

lemma isPrefixOf_append (y z : List Char) : y.isPrefixOf (y ++ z) = true := by
  rw [List.isPrefixOf_iff_prefix]
  exact List.prefix_append y z

/-- A string occurs as a Python substring of any string it is spliced
into. -/
lemma strIn_append_middle (a b c : String) : strIn b (a ++ b ++ c) = true := by
  unfold strIn
  rw [List.any_eq_true]
  refine ⟨b.toList ++ c.toList, ?_, isPrefixOf_append _ _⟩
  rw [List.mem_tails]
  have hsplit : (a ++ b ++ c).toList = a.toList ++ (b.toList ++ c.toList) := by
    simp
  rw [hsplit]
  exact List.suffix_append _ _

/-- Invariant of the file loop: counters account exactly for the attempted
files, the error list length tracks the error counter, and every error
message embeds the basename of a failing input file. -/
lemma run_files_invariant (outcome : String → Except String Unit)
    (interrupted : ℕ → Bool) :
    ∀ (files : List String) (idx s e : ℕ) (errs : List String),
      (run_files outcome interrupted idx files s e errs).success_count
          + (run_files outcome interrupted idx files s e errs).error_count
        = s + e + attempted_count interrupted idx files ∧
      (run_files outcome interrupted idx files s e errs).errors.length + e
        = (run_files outcome interrupted idx files s e errs).error_count
          + errs.length ∧
      (∀ msg ∈ (run_files outcome interrupted idx files s e errs).errors,
        msg ∈ errs ∨ ∃ f ∈ files, (∃ er, outcome f = Except.error er) ∧
          strIn (basename f) msg = true) := by
  intro files
  induction files with
  | nil =>
    intro idx s e errs
    refine ⟨by simp [run_files, attempted_count],
      by simp only [run_files]; omega, ?_⟩
    intro msg hm
    exact Or.inl hm
  | cons f rest ih =>
    intro idx s e errs
    by_cases hint : interrupted idx
    · refine ⟨?_, ?_, ?_⟩
      · simp [run_files, attempted_count, hint]
      · simp only [run_files, hint, if_true, ite_true]
        omega
      · intro msg hm
        simp only [run_files, hint, if_true, ite_true] at hm
        exact Or.inl hm
    · cases hout : outcome f with
      | ok u =>
        obtain ⟨ih1, ih2, ih3⟩ := ih (idx + 1) (s + 1) e errs
        refine ⟨?_, ?_, ?_⟩
        · simp [run_files, hint, hout, attempted_count]
          omega
        · simp [run_files, hint, hout]
          omega
        · intro msg hm
          simp only [run_files, hint] at hm
          simp only [hout] at hm
          simp at hm
          rcases ih3 msg hm with h | ⟨f2, hf2, he2, hs2⟩
          · exact Or.inl h
          · exact Or.inr ⟨f2, List.mem_cons_of_mem _ hf2, he2, hs2⟩
      | error er =>
        obtain ⟨ih1, ih2, ih3⟩ :=
          ih (idx + 1) s (e + 1) (errs ++ ["Failed " ++ basename f ++ ": " ++ er])
        simp only [List.length_append, List.length_singleton] at ih2
        refine ⟨?_, ?_, ?_⟩
        · simp [run_files, hint, hout, attempted_count]
          omega
        · simp [run_files, hint, hout]
          omega
        · intro msg hm
          simp only [run_files, hint] at hm
          simp only [hout] at hm
          simp at hm
          rcases ih3 msg hm with h | ⟨f2, hf2, he2, hs2⟩
          · rw [List.mem_append] at h
            rcases h with h | h
            · exact Or.inl h
            · rw [List.mem_singleton] at h
              subst h
              refine Or.inr ⟨f, List.mem_cons_self _ _, ⟨er, hout⟩, ?_⟩
              have hassoc : "Failed " ++ basename f ++ ": " ++ er
                  = ("Failed " ++ basename f) ++ (": " ++ er) := by
                rw [String.append_assoc]
              rw [hassoc]
              exact strIn_append_middle "Failed " (basename f) (": " ++ er)
          · exact Or.inr ⟨f2, List.mem_cons_of_mem _ hf2, he2, hs2⟩

/-- Without interruption the run reports a completed (non-canceled)
result. -/
lemma run_files_not_canceled (outcome : String → Except String Unit)
    (interrupted : ℕ → Bool) (hno : ∀ i, interrupted i = false) :
    ∀ (files : List String) (idx s e : ℕ) (errs : List String),
      (run_files outcome interrupted idx files s e errs).canceled = false := by
  intro files
  induction files with
  | nil => intro idx s e errs; rfl
  | cons f rest ih =>
    intro idx s e errs
    simp only [run_files, hno idx]
    cases hout : outcome f with
    | ok u => simp [hout, ih]
    | error er => simp [hout, ih]

/-- C8: the batch loop catches every per-file failure: counters account
exactly for the attempted files (all files when never interrupted), the
error list has one entry per failure, each entry embeds the failing
file's basename, and an uninterrupted run completes (reports
not-canceled); the run function is total, so no exception propagates. -/
theorem C8_batch_partial_failure (files : List String)
    (outcome : String → Except String Unit) (interrupted : ℕ → Bool) :
    (pdf_processing_run files outcome interrupted).success_count
        + (pdf_processing_run files outcome interrupted).error_count
      = attempted_count interrupted 0 files ∧
    (pdf_processing_run files outcome interrupted).errors.length
      = (pdf_processing_run files outcome interrupted).error_count ∧
    (∀ msg ∈ (pdf_processing_run files outcome interrupted).errors,
      ∃ f ∈ files, (∃ er, outcome f = Except.error er) ∧
        strIn (basename f) msg = true) ∧
    ((∀ i, interrupted i = false) →
      (pdf_processing_run files outcome interrupted).canceled = false) := by
  obtain ⟨h1, h2, h3⟩ := run_files_invariant outcome interrupted files 0 0 0 []
  refine ⟨?_, ?_, ?_, ?_⟩
  · simpa using h1
  · simpa using h2
  · intro msg hm
    rcases h3 msg hm with h | h
    · simp at h
    · exact h
  · intro hno
    exact run_files_not_canceled outcome interrupted hno files 0 0 0 []

/-- Witness for C8: a batch of three files in which exactly the second is
corrupt yields success 2, error 1, a completed run and one error message
naming file 2. -/
theorem C8_batch_partial_failure_witness :
    (pdf_processing_run ["dir/f1.pdf", "dir/f2.pdf", "dir/f3.pdf"]
        (fun f => if f = "dir/f2.pdf" then Except.error "corrupt" else Except.ok ())
        (fun _ => false)).success_count
      + (pdf_processing_run ["dir/f1.pdf", "dir/f2.pdf", "dir/f3.pdf"]
          (fun f => if f = "dir/f2.pdf" then Except.error "corrupt" else Except.ok ())
          (fun _ => false)).error_count
      = attempted_count (fun _ => false) 0 ["dir/f1.pdf", "dir/f2.pdf", "dir/f3.pdf"] ∧
    (∃ f ∈ ["dir/f1.pdf", "dir/f2.pdf", "dir/f3.pdf"],
      (∃ er, (if f = "dir/f2.pdf" then Except.error "corrupt" else Except.ok ())
          = (Except.error er : Except String Unit)) ∧
      strIn (basename f) "Failed f2.pdf: corrupt" = true) ∧
    (pdf_processing_run ["dir/f1.pdf", "dir/f2.pdf", "dir/f3.pdf"]
        (fun f => if f = "dir/f2.pdf" then Except.error "corrupt" else Except.ok ())
        (fun _ => false)).canceled = false ∧
    pdf_processing_run ["dir/f1.pdf", "dir/f2.pdf", "dir/f3.pdf"]
        (fun f => if f = "dir/f2.pdf" then Except.error "corrupt" else Except.ok ())
        (fun _ => false)
      = ⟨false, 2, 1, ["Failed f2.pdf: corrupt"]⟩ := by
  refine ⟨?_, ?_, ?_, by decide⟩
  · exact (C8_batch_partial_failure ["dir/f1.pdf", "dir/f2.pdf", "dir/f3.pdf"]
      (fun f => if f = "dir/f2.pdf" then Except.error "corrupt" else Except.ok ())
      (fun _ => false)).1
  · exact (C8_batch_partial_failure ["dir/f1.pdf", "dir/f2.pdf", "dir/f3.pdf"]
      (fun f => if f = "dir/f2.pdf" then Except.error "corrupt" else Except.ok ())
      (fun _ => false)).2.2.1 "Failed f2.pdf: corrupt" (by decide)
  · exact (C8_batch_partial_failure ["dir/f1.pdf", "dir/f2.pdf", "dir/f3.pdf"]
      (fun f => if f = "dir/f2.pdf" then Except.error "corrupt" else Except.ok ())
      (fun _ => false)).2.2.2 (fun i => rfl)

/-!
## Batch engine, cache-ownership view (src/ui/processing.py run,
src/core/pdf_operations.py)

This view embeds where the worker's caching happens: the font cache of a
PDFOperations instance (get_font inserts the fontfile-or-key cache key)
and the per-opacity byte cache of PreparedStamp. apply_text_to_page
resolves the font and calls get_font once, and insert_text_with_background
calls get_font again unless the text is empty; insert_stamp_bytes and
process_stamp_image never touch a font cache. The worker's run() creates
local_pdf_ops = PDFOperations() and builds the PreparedStamp on it, but
applies text and timestamps through self.pdf_ops — the instance the
window passed in.
-/

/-- The mutable state of a PDFOperations instance: its font cache keys in
insertion order (the cached fitz.Font objects live in the library). -/
structure PDFOperations where
  font_cache : List String
deriving DecidableEq

/-- PDFOperations.get_font: cache under fontfile if given, else under the
font key. -/
def get_font (ops : PDFOperations) (font_key : String) (fontfile : Option String) :
    PDFOperations :=
  let cache_key := fontfile.getD font_key
  if cache_key ∈ ops.font_cache then ops else ⟨ops.font_cache ++ [cache_key]⟩

/-- One font family's variant files; none models a missing variant (the
source uses dict.get and Python or, and real font paths are non-empty
strings, so falsy means absent). -/
structure FontFamilyFiles where
  regular : Option String
  bold : Option String
  italic : Option String
  bolditalic : Option String

/-- PDFOperations.resolve_font_path: pick the variant file with the
source's degradation chain. -/
def resolve_font_path (family : Option String) (bold italic : Option Bool)
    (font_families : List (String × FontFamilyFiles)) : Option String :=
  let fam := family.getD "Arial"
  let b := bold.getD false
  let i := italic.getD false
  match (font_families.find? (fun e => decide (e.1 = fam))).map Prod.snd with
  | none => none
  | some m =>
    if b && i then m.bolditalic <|> m.bold <|> m.italic <|> m.regular
    else if b then m.bold <|> m.regular
    else if i then m.italic <|> m.regular
    else m.regular

/-- The keys of a text/timestamp config the cache flow reads. -/
structure WorkerTextCfg where
  font_family : Option String
  bold : Option Bool
  italic : Option Bool
  page_selection : Option String
  custom_pages : Option String

/-- The page-selection part of a text config. -/
def WorkerTextCfg.sel (c : WorkerTextCfg) : SelCfg :=
  ⟨c.page_selection, c.custom_pages⟩

/-- The keys of a stamp config the cache flow reads. -/
structure WorkerStampCfg where
  stamp_opacity : Option ℚ
  page_selection : Option String
  custom_pages : Option String

/-- The page-selection part of a stamp config. -/
def WorkerStampCfg.sel (c : WorkerStampCfg) : SelCfg :=
  ⟨c.page_selection, c.custom_pages⟩

/-- The font-cache effect of PDFOperations.apply_text_to_page on the
instance it is called on: get_font for the resolved font (step 3), and a
second, idempotent get_font inside insert_text_with_background unless the
text is empty (that call returns before touching the font). -/
def apply_text_to_page_fonts (ops : PDFOperations) (cfg : WorkerTextCfg)
    (font_families : List (String × FontFamilyFiles)) (text : String) :
    PDFOperations :=
  let font_path := resolve_font_path cfg.font_family cfg.bold cfg.italic font_families
  let font_key := font_path.getD "helv"
  let ops1 := get_font ops font_key font_path
  if text = "" then ops1 else get_font ops1 font_key font_path

/-- Python round(x, 2) for the cache key. Python rounds half to even at
exact two-decimal ties; this model rounds half up, which agrees with
Python everywhere except exact ties, and no cache-ownership statement
below depends on the key function. -/
def round2 (q : ℚ) : ℚ :=
  ((⌊q * 100 + 1 / 2⌋ : ℤ) : ℚ) / 100

/-- The state of a PreparedStamp: its source path and the rounded
opacities whose processed bytes are cached. It is constructed in run()
with local_pdf_ops, whose process_stamp_image is a pure function of the
image file (it touches no cache on the PDFOperations instance). -/
structure PreparedStamp where
  stamp_path : String
  cache_keys : List ℚ
deriving DecidableEq

/-- PreparedStamp.get_bytes: process once per rounded opacity. -/
def PreparedStamp.get_bytes_cache (ps : PreparedStamp) (opacity : ℚ) :
    PreparedStamp :=
  let key := round2 opacity
  if key ∈ ps.cache_keys then ps else ⟨ps.stamp_path, ps.cache_keys ++ [key]⟩

/-- The features dict of the run. -/
structure Features where
  text_insertion : Bool
  timestamp_insertion : Bool
  stamp_insertion : Bool
  pdf_security : Bool

/-- The caches alive during a run: the window's instance self.pdf_ops, the
worker-created local_pdf_ops, and the PreparedStamp when one was built. -/
structure RunCacheState where
  ui_ops : PDFOperations
  local_ops : PDFOperations
  prepared : Option PreparedStamp

/-- The settings payload of PDFProcessingThread relevant to caching. -/
structure WorkerSettings where
  features : Features
  text_configs : List ((String × String) × WorkerTextCfg)
  text_default : WorkerTextCfg
  ts_configs : List ((String × String) × WorkerTextCfg)
  ts_default : WorkerTextCfg
  stamp_configs : List ((String × String) × WorkerStampCfg)
  stamp_default : WorkerStampCfg
  font_families : List (String × FontFamilyFiles)
  ts_full_str : String
  stamp_path : Option String

/-- The text-insertion block of the page loop: resolve the config for the
page, and when the page is selected apply the text through self.pdf_ops
(the ui instance). -/
def run_page_text_step (ws : WorkerSettings) (final_text : String)
    (i page_count : ℕ) (page : Page) (st : RunCacheState) : RunCacheState :=
  if ws.features.text_insertion then
    let cfg := thread_get_config page ws.text_configs ws.text_default
    if check_selection i page_count cfg.sel then
      { st with ui_ops := apply_text_to_page_fonts st.ui_ops cfg ws.font_families final_text }
    else st
  else st

/-- The timestamp-insertion block of the page loop, also through
self.pdf_ops. -/
def run_page_ts_step (ws : WorkerSettings)
    (i page_count : ℕ) (page : Page) (st : RunCacheState) : RunCacheState :=
  if ws.features.timestamp_insertion then
    let cfg := thread_get_config page ws.ts_configs ws.ts_default
    if check_selection i page_count cfg.sel then
      { st with ui_ops := apply_text_to_page_fonts st.ui_ops cfg ws.font_families ws.ts_full_str }
    else st
  else st

/-- The stamp-insertion block of the page loop: when a PreparedStamp was
built and the page is selected, fetch the bytes for the page's opacity
from its cache (insert_stamp_bytes itself caches nothing). -/
def run_page_stamp_step (ws : WorkerSettings)
    (i page_count : ℕ) (page : Page) (st : RunCacheState) : RunCacheState :=
  if ws.features.stamp_insertion then
    match st.prepared with
    | some ps =>
      let cfg := thread_get_config page ws.stamp_configs ws.stamp_default
      if check_selection i page_count cfg.sel then
        let opacity := (cfg.stamp_opacity.getD 100) / 100
        { st with prepared := some (ps.get_bytes_cache opacity) }
      else st
    | none => st
  else st

/-- One page of the worker loop: text, then timestamp, then stamp. -/
def run_page_caches (ws : WorkerSettings) (final_text : String)
    (i page_count : ℕ) (page : Page) (st : RunCacheState) : RunCacheState :=
  run_page_stamp_step ws i page_count page
    (run_page_ts_step ws i page_count page
      (run_page_text_step ws final_text i page_count page st))

/-- The page loop of one document. -/
def run_pages_caches (ws : WorkerSettings) (final_text : String)
    (page_count : ℕ) : ℕ → List Page → RunCacheState → RunCacheState
  | _, [], st => st
  | i, page :: rest, st =>
    run_pages_caches ws final_text page_count (i + 1) rest
      (run_page_caches ws final_text i page_count page st)

/-- The file loop; each file carries its pages and the text content
produced for it by the substitution engine. -/
def run_files_caches (ws : WorkerSettings) :
    List (List Page × String) → RunCacheState → RunCacheState
  | [], st => st
  | (pages, final_text) :: rest, st =>
    run_files_caches ws rest
      (run_pages_caches ws final_text pages.length 0 pages st)

/-- PDFProcessingThread.run, cache-ownership view: run() constructs a
fresh local_pdf_ops with an empty font cache, builds the PreparedStamp on
it when stamp insertion is enabled and a stamp path exists, and then
processes the files. -/
def pdf_processing_run_caches (ws : WorkerSettings)
    (files : List (List Page × String)) (ui_ops : PDFOperations) : RunCacheState :=
  let st0 : RunCacheState :=
    { ui_ops := ui_ops
      local_ops := ⟨[]⟩
      prepared :=
        if ws.features.stamp_insertion then
          ws.stamp_path.map (fun p => ⟨p, []⟩)
        else none }
  run_files_caches ws files st0

/-!
## Claim C3: cache-ownership lemmas
-/

lemma get_font_append (ops : PDFOperations) (k : String) (f : Option String) :
    ∃ t, (get_font ops k f).font_cache = ops.font_cache ++ t := by
  unfold get_font
  by_cases h : f.getD k ∈ ops.font_cache
  · refine ⟨[], ?_⟩
    simp [h]
  · refine ⟨[f.getD k], ?_⟩
    simp [h]

lemma apply_text_to_page_fonts_append (ops : PDFOperations) (cfg : WorkerTextCfg)
    (fams : List (String × FontFamilyFiles)) (text : String) :
    ∃ t, (apply_text_to_page_fonts ops cfg fams text).font_cache
      = ops.font_cache ++ t := by
  unfold apply_text_to_page_fonts
  obtain ⟨t1, h1⟩ := get_font_append ops
    ((resolve_font_path cfg.font_family cfg.bold cfg.italic fams).getD "helv")
    (resolve_font_path cfg.font_family cfg.bold cfg.italic fams)
  obtain ⟨t2, h2⟩ := get_font_append
    (get_font ops ((resolve_font_path cfg.font_family cfg.bold cfg.italic fams).getD "helv")
      (resolve_font_path cfg.font_family cfg.bold cfg.italic fams))
    ((resolve_font_path cfg.font_family cfg.bold cfg.italic fams).getD "helv")
    (resolve_font_path cfg.font_family cfg.bold cfg.italic fams)
  by_cases ht : text = ""
  · refine ⟨t1, ?_⟩
    simp [ht, h1]
  · refine ⟨t1 ++ t2, ?_⟩
    simp only [ht, if_false, ite_false]
    rw [h2, h1, List.append_assoc]

lemma get_bytes_cache_path (ps : PreparedStamp) (o : ℚ) :
    (ps.get_bytes_cache o).stamp_path = ps.stamp_path := by
  unfold PreparedStamp.get_bytes_cache
  by_cases h : round2 o ∈ ps.cache_keys
  · simp [h]
  · simp [h]

/-- The text block either leaves the state alone or rewrites only ui_ops
through apply_text_to_page (the source calls self.pdf_ops). -/
lemma run_page_text_step_cases (ws : WorkerSettings) (final_text : String)
    (i pc : ℕ) (page : Page) (st : RunCacheState) :
    run_page_text_step ws final_text i pc page st = st ∨
    run_page_text_step ws final_text i pc page st
      = { st with ui_ops := (apply_text_to_page_fonts st.ui_ops
          (thread_get_config page ws.text_configs ws.text_default)
          ws.font_families final_text) } := by
  unfold run_page_text_step
  by_cases hf : ws.features.text_insertion = true
  · by_cases hs : check_selection i pc
        (thread_get_config page ws.text_configs ws.text_default).sel = true
    · right
      simp [hf, hs]
    · left
      simp [hf, hs]
  · left
    simp [hf]

/-- Same shape for the timestamp block. -/
lemma run_page_ts_step_cases (ws : WorkerSettings)
    (i pc : ℕ) (page : Page) (st : RunCacheState) :
    run_page_ts_step ws i pc page st = st ∨
    run_page_ts_step ws i pc page st
      = { st with ui_ops := (apply_text_to_page_fonts st.ui_ops
          (thread_get_config page ws.ts_configs ws.ts_default)
          ws.font_families ws.ts_full_str) } := by
  unfold run_page_ts_step
  by_cases hf : ws.features.timestamp_insertion = true
  · by_cases hs : check_selection i pc
        (thread_get_config page ws.ts_configs ws.ts_default).sel = true
    · right
      simp [hf, hs]
    · left
      simp [hf, hs]
  · left
    simp [hf]

/-- The stamp block either leaves the state alone or rewrites only the
PreparedStamp cache (built on the worker's local instance). -/
lemma run_page_stamp_step_cases (ws : WorkerSettings)
    (i pc : ℕ) (page : Page) (st : RunCacheState) :
    run_page_stamp_step ws i pc page st = st ∨
    ∃ ps, st.prepared = some ps ∧
      run_page_stamp_step ws i pc page st
        = { st with prepared := (some (ps.get_bytes_cache
            (((thread_get_config page ws.stamp_configs ws.stamp_default).stamp_opacity.getD
              100) / 100))) } := by
  unfold run_page_stamp_step
  by_cases hf : ws.features.stamp_insertion = true
  · cases hp : st.prepared with
    | none =>
      left
      simp [hf, hp]
    | some ps =>
      by_cases hs : check_selection i pc
          (thread_get_config page ws.stamp_configs ws.stamp_default).sel = true
      · right
        exact ⟨ps, rfl, by simp [hf, hp, hs]⟩
      · left
        simp [hf, hp, hs]
  · left
    simp [hf]

lemma run_page_text_step_inv (ws : WorkerSettings) (final_text : String)
    (i pc : ℕ) (page : Page) (st : RunCacheState) :
    (run_page_text_step ws final_text i pc page st).local_ops = st.local_ops ∧
    (∃ t, (run_page_text_step ws final_text i pc page st).ui_ops.font_cache
      = st.ui_ops.font_cache ++ t) ∧
    (run_page_text_step ws final_text i pc page st).prepared = st.prepared := by
  rcases run_page_text_step_cases ws final_text i pc page st with h | h <;> rw [h]
  · exact ⟨rfl, ⟨[], by simp⟩, rfl⟩
  · exact ⟨rfl, apply_text_to_page_fonts_append _ _ _ _, rfl⟩

lemma run_page_ts_step_inv (ws : WorkerSettings)
    (i pc : ℕ) (page : Page) (st : RunCacheState) :
    (run_page_ts_step ws i pc page st).local_ops = st.local_ops ∧
    (∃ t, (run_page_ts_step ws i pc page st).ui_ops.font_cache
      = st.ui_ops.font_cache ++ t) ∧
    (run_page_ts_step ws i pc page st).prepared = st.prepared := by
  rcases run_page_ts_step_cases ws i pc page st with h | h <;> rw [h]
  · exact ⟨rfl, ⟨[], by simp⟩, rfl⟩
  · exact ⟨rfl, apply_text_to_page_fonts_append _ _ _ _, rfl⟩

lemma run_page_stamp_step_inv (ws : WorkerSettings)
    (i pc : ℕ) (page : Page) (st : RunCacheState) :
    (run_page_stamp_step ws i pc page st).local_ops = st.local_ops ∧
    (run_page_stamp_step ws i pc page st).ui_ops = st.ui_ops ∧
    (st.prepared = none → (run_page_stamp_step ws i pc page st).prepared = none) ∧
    (∀ ps2, (run_page_stamp_step ws i pc page st).prepared = some ps2 →
      ∃ ps1, st.prepared = some ps1 ∧ ps2.stamp_path = ps1.stamp_path) := by
  rcases run_page_stamp_step_cases ws i pc page st with h | ⟨ps, hps, h⟩ <;> rw [h]
  · exact ⟨rfl, rfl, fun hn => hn, fun ps2 h2 => ⟨ps2, h2, rfl⟩⟩
  · refine ⟨rfl, rfl, (fun hn => by rw [hps] at hn; cases hn), ?_⟩
    intro ps2 h2
    injection h2 with h2
    exact ⟨ps, hps, by rw [← h2, get_bytes_cache_path]⟩

lemma run_page_caches_inv (ws : WorkerSettings) (final_text : String)
    (i pc : ℕ) (page : Page) (st : RunCacheState) :
    (run_page_caches ws final_text i pc page st).local_ops = st.local_ops ∧
    (∃ t, (run_page_caches ws final_text i pc page st).ui_ops.font_cache
      = st.ui_ops.font_cache ++ t) ∧
    (st.prepared = none → (run_page_caches ws final_text i pc page st).prepared = none) ∧
    (∀ ps2, (run_page_caches ws final_text i pc page st).prepared = some ps2 →
      ∃ ps1, st.prepared = some ps1 ∧ ps2.stamp_path = ps1.stamp_path) := by
  obtain ⟨t1l, ⟨t1, t1u⟩, t1p⟩ := run_page_text_step_inv ws final_text i pc page st
  obtain ⟨t2l, ⟨t2, t2u⟩, t2p⟩ := run_page_ts_step_inv ws i pc page
    (run_page_text_step ws final_text i pc page st)
  obtain ⟨t3l, t3u, t3pn, t3ps⟩ := run_page_stamp_step_inv ws i pc page
    (run_page_ts_step ws i pc page (run_page_text_step ws final_text i pc page st))
  unfold run_page_caches
  refine ⟨by rw [t3l, t2l, t1l], ⟨t1 ++ t2, ?_⟩, ?_, ?_⟩
  · rw [t3u, t2u, t1u, List.append_assoc]
  · intro h
    exact t3pn (by rw [t2p, t1p, h])
  · intro ps2 h2
    obtain ⟨ps1, hps1, hpath⟩ := t3ps ps2 h2
    rw [t2p, t1p] at hps1
    exact ⟨ps1, hps1, hpath⟩

lemma run_pages_caches_inv (ws : WorkerSettings) (final_text : String)
    (pc : ℕ) :
    ∀ (pages : List Page) (i : ℕ) (st : RunCacheState),
      (run_pages_caches ws final_text pc i pages st).local_ops = st.local_ops ∧
      (∃ t, (run_pages_caches ws final_text pc i pages st).ui_ops.font_cache
        = st.ui_ops.font_cache ++ t) ∧
      (st.prepared = none →
        (run_pages_caches ws final_text pc i pages st).prepared = none) ∧
      (∀ ps2, (run_pages_caches ws final_text pc i pages st).prepared = some ps2 →
        ∃ ps1, st.prepared = some ps1 ∧ ps2.stamp_path = ps1.stamp_path) := by
  intro pages
  induction pages with
  | nil =>
    intro i st
    exact ⟨rfl, ⟨[], by rw [List.append_nil]; exact rfl⟩, fun h => h, fun ps2 h2 => ⟨ps2, h2, rfl⟩⟩
  | cons page rest ih =>
    intro i st
    obtain ⟨p1l, ⟨t1, p1u⟩, p1pn, p1ps⟩ := run_page_caches_inv ws final_text i pc page st
    obtain ⟨r1l, ⟨t2, r1u⟩, r1pn, r1ps⟩ :=
      ih (i + 1) (run_page_caches ws final_text i pc page st)
    refine ⟨by rw [show run_pages_caches ws final_text pc i (page :: rest) st
        = run_pages_caches ws final_text pc (i + 1) rest
            (run_page_caches ws final_text i pc page st) from rfl, r1l, p1l],
      ⟨t1 ++ t2, ?_⟩, ?_, ?_⟩
  
    · show (run_pages_caches ws final_text pc (i + 1) rest
        (run_page_caches ws final_text i pc page st)).ui_ops.font_cache = _
      rw [r1u, p1u, List.append_assoc]
    · intro h
      exact r1pn (p1pn h)
    · intro ps2 h2
      obtain ⟨psm, hm, hpm⟩ := r1ps ps2 h2
      obtain ⟨ps1, h1, hp1⟩ := p1ps psm hm
      exact ⟨ps1, h1, by rw [hpm, hp1]⟩

lemma run_files_caches_inv (ws : WorkerSettings) :
    ∀ (files : List (List Page × String)) (st : RunCacheState),
      (run_files_caches ws files st).local_ops = st.local_ops ∧
      (∃ t, (run_files_caches ws files st).ui_ops.font_cache
        = st.ui_ops.font_cache ++ t) ∧
      (st.prepared = none → (run_files_caches ws files st).prepared = none) ∧
      (∀ ps2, (run_files_caches ws files st).prepared = some ps2 →
        ∃ ps1, st.prepared = some ps1 ∧ ps2.stamp_path = ps1.stamp_path) := by
  intro files
  induction files with
  | nil =>
    intro st
    exact ⟨rfl, ⟨[], by rw [List.append_nil]; exact rfl⟩, fun h => h, fun ps2 h2 => ⟨ps2, h2, rfl⟩⟩
  | cons fj rest ih =>
    intro st
    obtain ⟨pages, final_text⟩ := fj
    obtain ⟨p1l, ⟨t1, p1u⟩, p1pn, p1ps⟩ :=
      run_pages_caches_inv ws final_text pages.length pages 0 st
    obtain ⟨r1l, ⟨t2, r1u⟩, r1pn, r1ps⟩ :=
      ih (run_pages_caches ws final_text pages.length 0 pages st)
    refine ⟨?_, ⟨t1 ++ t2, ?_⟩, ?_, ?_⟩
    · show (run_files_caches ws rest
        (run_pages_caches ws final_text pages.length 0 pages st)).local_ops = _
      rw [r1l, p1l]
    · show (run_files_caches ws rest
        (run_pages_caches ws final_text pages.length 0 pages st)).ui_ops.font_cache = _
      rw [r1u, p1u, List.append_assoc]
    · intro h
      exact r1pn (p1pn h)
    · intro ps2 h2
      obtain ⟨psm, hm, hpm⟩ := r1ps ps2 h2
      obtain ⟨ps1, h1, hp1⟩ := p1ps psm hm
      exact ⟨ps1, h1, by rw [hpm, hp1]⟩

/-- C3 counterexample: the worker applies text through self.pdf_ops — the
UI renderer's instance — so a run with text insertion enabled caches the
resolved font in the UI instance's font cache: it is NOT left unchanged.
The concrete run below grows the UI font cache from empty to one entry. -/
theorem C3_cache_ownership_counterexample :
    ¬ (∀ (ws : WorkerSettings) (files : List (List Page × String))
        (ui_ops : PDFOperations),
        (pdf_processing_run_caches ws files ui_ops).ui_ops = ui_ops) := by
  intro hall
  have h := hall
    { features := ⟨true, false, false, false⟩
      text_configs := []
      text_default := ⟨some "Arial", some false, some false, some "all", some ""⟩
      ts_configs := []
      ts_default := ⟨some "Arial", some false, some false, some "all", some ""⟩
      stamp_configs := []
      stamp_default := ⟨some 100, some "all", some ""⟩
      font_families := [("Arial", ⟨some "fonts/Arial-Regular.ttf", none, none, none⟩)]
      ts_full_str := ""
      stamp_path := none }
    [([⟨595, 842, 0⟩], "hello")]
    ⟨[]⟩
  exact absurd h (by decide)

/-- C3 amended: the worker-created local PDFOperations never caches a
font (its cache stays empty for every run); all font caching performed by
the worker goes to the UI renderer's shared instance, whose cache can only
gain entries; and stamp-byte caching is confined to the PreparedStamp the
worker builds for the configured stamp path (none exists when stamp
insertion is off or no path is set). -/
theorem C3_cache_ownership_amended (ws : WorkerSettings)
    (files : List (List Page × String)) (ui_ops : PDFOperations) :
    (pdf_processing_run_caches ws files ui_ops).local_ops = ⟨[]⟩ ∧
    (∃ new_keys : List String,
      (pdf_processing_run_caches ws files ui_ops).ui_ops.font_cache
        = ui_ops.font_cache ++ new_keys) ∧
    (ws.features.stamp_insertion = false ∨ ws.stamp_path = none →
      (pdf_processing_run_caches ws files ui_ops).prepared = none) ∧
    (∀ ps, (pdf_processing_run_caches ws files ui_ops).prepared = some ps →
      ws.stamp_path = some ps.stamp_path) := by
  obtain ⟨hl, hu, hpn, hps⟩ := run_files_caches_inv ws files
    { ui_ops := ui_ops
      local_ops := ⟨[]⟩
      prepared :=
        if ws.features.stamp_insertion then
          ws.stamp_path.map (fun p => ⟨p, []⟩)
        else none }
  refine ⟨hl, hu, ?_, ?_⟩
  · intro hoff
    apply hpn
    rcases hoff with hoff | hoff
    · simp [hoff]
    · simp [hoff]
  · intro ps hp
    obtain ⟨ps1, hps1, hpath⟩ := hps ps hp
    by_cases hf : ws.features.stamp_insertion = true
    · rw [if_pos hf] at hps1
      cases hsp : ws.stamp_path with
      | none => rw [hsp] at hps1; cases hps1
      | some p =>
        rw [hsp] at hps1
        injection hps1 with hps1
        rw [hpath, ← hps1]
    · rw [if_neg hf] at hps1
      cases hps1

/-- Witness for C3 amended at concrete runs. -/
theorem C3_cache_ownership_amended_witness :
    (pdf_processing_run_caches
      { features := ⟨true, false, false, false⟩
        text_configs := []
        text_default := ⟨some "Arial", some false, some false, some "all", some ""⟩
        ts_configs := []
        ts_default := ⟨some "Arial", some false, some false, some "all", some ""⟩
        stamp_configs := []
        stamp_default := ⟨some 100, some "all", some ""⟩
        font_families := [("Arial", ⟨some "fonts/Arial-Regular.ttf", none, none, none⟩)]
        ts_full_str := ""
        stamp_path := none }
      [([⟨595, 842, 0⟩], "hello")] ⟨[]⟩).prepared = none ∧
    ({ features := ⟨false, false, true, false⟩
       text_configs := []
       text_default := ⟨some "Arial", some false, some false, some "all", some ""⟩
       ts_configs := []
       ts_default := ⟨some "Arial", some false, some false, some "all", some ""⟩
       stamp_configs := []
       stamp_default := ⟨some 100, some "all", some ""⟩
       font_families := []
       ts_full_str := ""
       stamp_path := some "stamps/logo.png" } : WorkerSettings).stamp_path
      = some (PreparedStamp.mk "stamps/logo.png" []).stamp_path := by
  constructor
  · exact (C3_cache_ownership_amended
      { features := ⟨true, false, false, false⟩
        text_configs := []
        text_default := ⟨some "Arial", some false, some false, some "all", some ""⟩
        ts_configs := []
        ts_default := ⟨some "Arial", some false, some false, some "all", some ""⟩
        stamp_configs := []
        stamp_default := ⟨some 100, some "all", some ""⟩
        font_families := [("Arial", ⟨some "fonts/Arial-Regular.ttf", none, none, none⟩)]
        ts_full_str := ""
        stamp_path := none }
      [([⟨595, 842, 0⟩], "hello")] ⟨[]⟩).2.2.1 (Or.inr rfl)
  · exact (C3_cache_ownership_amended
      { features := ⟨false, false, true, false⟩
        text_configs := []
        text_default := ⟨some "Arial", some false, some false, some "all", some ""⟩
        ts_configs := []
        ts_default := ⟨some "Arial", some false, some false, some "all", some ""⟩
        stamp_configs := []
        stamp_default := ⟨some 100, some "all", some ""⟩
        font_families := []
        ts_full_str := ""
        stamp_path := some "stamps/logo.png" }
      [] ⟨[]⟩).2.2.2 (PreparedStamp.mk "stamps/logo.png" []) (by decide)

end Madany
